import Mathlib

/-!
# File-transfer protocol: a shallow embedding of the three practice programs

The C sources are embedded as total functions over *scripts* of system-call
results.  Every call of `recv`, `send`, `write`, ... consumes the next entry of
its script and is recorded in a trace; when a script is exhausted the call is
taken to block forever and the run ends with a `blocked` tag, so that every run
has an outcome that can be inspected.

* bytes are natural numbers (`Byte`), C strings are the bytes before the first 0;
* `long long` / `ssize_t` values are `Int`; every counter below is bounded by a
  declared size below `2 ^ 63`, so no wrap-around is reachable on the runs the
  theorems speak about;
* the fixed header of Practice 2 is laid out as on the x86-64 ABI:
  32 + 256 + 8 bytes, the size being little-endian two's complement;
* a script is any list of results, also one no kernel would produce (a read longer
  than the request): theorems that depend on it assume that a call returns at most
  what it was asked for;
* `unlink`, `close`, `fclose` and `mkdir` are recorded in the trace and taken to
  succeed; the values returned by the `send` calls of the binary server are ignored
  by the source and are not part of its script;
* for the message-passing receiver a script is the sequence of payload messages; a
  message longer than the receive count would be an MPI truncation error, so theorems
  assume messages of at most `CHUNK_SIZE` bytes.
-/

/-- One byte on the wire or in a file. -/
abbrev Byte := Nat

/-- Result of one `recv(2)` call as the kernel reports it. -/
inductive RecvResult where
  /-- the call failed and returned the negative value `-(e+1)` -/
  | error (e : Nat)
  /-- orderly shutdown by the peer: the call returned 0 -/
  | closed
  /-- the call copied `bytes` into the buffer and returned their number -/
  | data (bytes : List Byte)
  deriving DecidableEq, Repr

namespace RecvResult

/-- Value returned by the call. -/
def ret : RecvResult → Int
  | error e => -((e : Int) + 1)
  | closed => 0
  | data bs => (bs.length : Int)

/-- Bytes the call stored in the caller's buffer. -/
def bytes : RecvResult → List Byte
  | data bs => bs
  | _ => []

end RecvResult

/-- Bytes of a C string: everything before the first NUL. -/
def cstr (buf : List Byte) : List Byte := buf.takeWhile (fun b => b != 0)

/-- Test `strcmp(a, b) == 0` on two character buffers. -/
def strcmp_eq (a b : List Byte) : Bool := cstr a == cstr b

/-- Test `strncmp(a, b, n) == 0`. -/
def strncmp_eq (a b : List Byte) (n : Nat) : Bool := (cstr a).take n == (cstr b).take n

/-! ## Practice 2: the binary ("RPC") receiver, `rpc_file_transfer_server.c` -/

namespace RpcServer

/-- `#define CHUNK_SIZE 4096` -/
def CHUNK_SIZE : Nat := 4096

/-- `#define FILENAME_MAX_LEN 256` -/
def FILENAME_MAX_LEN : Nat := 256

/-- `sizeof(Metadata)`: `char method[32]; char filename[256]; long long filesize;` -/
def sizeofMetadata : Nat := 32 + FILENAME_MAX_LEN + 8

/-- The string literal `"UploadFile"`. -/
def UploadFile : List Byte := [85, 112, 108, 111, 97, 100, 70, 105, 108, 101]

/-- The `Metadata` record. -/
structure Metadata where
  method : List Byte
  filename : List Byte
  filesize : Int
  deriving DecidableEq, Repr

/-- Unsigned little-endian value of a byte string. -/
def decodeLE : List Byte → Nat
  | [] => 0
  | b :: bs => b % 256 + 256 * decodeLE bs

/-- Reinterpret a 64-bit pattern as a `long long`. -/
def toInt64 (u : Nat) : Int :=
  if u % 2 ^ 64 < 2 ^ 63 then ((u % 2 ^ 64 : Nat) : Int) else ((u % 2 ^ 64 : Nat) : Int) - 2 ^ 64

/-- The record found in a buffer of `sizeof(Metadata)` bytes. -/
def parseMetadata (buf : List Byte) : Metadata where
  method := buf.take 32
  filename := (buf.drop 32).take FILENAME_MAX_LEN
  filesize := toInt64 (decodeLE ((buf.drop (32 + FILENAME_MAX_LEN)).take 8))

/-- Outcome of `recv_all`. -/
structure RecvAllOut where
  /-- returned value; `none` when the call never returns (script exhausted) -/
  ret : Option Int
  /-- bytes stored in the buffer, in order -/
  buf : List Byte
  /-- `(requested, returned)` of each `recv` issued, in order -/
  reads : List (Nat × Int)
  /-- read results not consumed -/
  rest : List RecvResult
  deriving DecidableEq, Repr

/-- The loop of `recv_all`, entered with `total` bytes already in `buf`:
`while (total < len) { n = recv(fd, buf + total, len - total, 0);
if (n <= 0) return n; total += n; } return total;` -/
def recv_all_loop (len : Nat) : List RecvResult → Nat → List Byte → RecvAllOut
  | script, total, buf =>
    if total < len then
      match script with
      | [] => { ret := none, buf := buf, reads := [], rest := [] }
      | r :: script' =>
        let n := r.ret
        if n ≤ 0 then
          { ret := some n, buf := buf, reads := [(len - total, n)], rest := script' }
        else
          let out := recv_all_loop len script' (total + n.toNat) (buf ++ r.bytes)
          { out with reads := (len - total, n) :: out.reads }
    else
      { ret := some (total : Int), buf := buf, reads := [], rest := script }

/-- The function `recv_all(sockfd, buf, len)`. -/
def recv_all (len : Nat) (script : List RecvResult) : RecvAllOut :=
  recv_all_loop len script 0 []

/-- System calls of `handle_client`, as recorded in its trace. -/
inductive Act where
  /-- `recv(conn_fd, _, req, 0)` returned `ret` -/
  | recv (req : Nat) (ret : Int)
  /-- `send(conn_fd, &code, sizeof(int), 0)` -/
  | send (code : Int)
  /-- `mkdir(OUTPUT_DIR, 0777)` -/
  | mkdir
  /-- `open(output_path, O_WRONLY | O_CREAT | O_TRUNC, 0666)`, `ok` iff it returned a descriptor -/
  | openOut (ok : Bool)
  /-- `write(fd, buffer, offered.length)` returned `ret` -/
  | write (offered : List Byte) (ret : Int)
  /-- `close(fd)` -/
  | closeOut
  /-- `unlink(output_path)` -/
  | unlinkOut
  /-- `close(conn_fd)` -/
  | closeConn
  deriving DecidableEq, Repr

/-- The `return` (or the blocking call) at which a run of `handle_client` ends. -/
inductive Exit where
  /-- a `recv` never returned -/
  | blocked
  /-- `recv_all` returned a value `<= 0` (line 57) -/
  | headerFailed
  /-- the method is not `"UploadFile"` (line 68) -/
  | invalidMethod
  /-- `open` failed (line 96) -/
  | openFailed
  /-- a payload `recv` returned a negative value (line 113) -/
  | recvError
  /-- `write` returned a negative value (line 129) -/
  | writeError
  /-- the end of the function was reached (line 165) -/
  | finished
  deriving DecidableEq, Repr

/-- Everything `handle_client` is given by its environment. -/
structure World where
  /-- results of the successive `recv` calls on `conn_fd` -/
  recvs : List RecvResult
  /-- whether `open` succeeds -/
  openOk : Bool
  /-- value returned by the `i`-th `write` call (counted from 0) when offered the given bytes -/
  writes : Nat → List Byte → Int
  /-- content of the output path before the call (`none`: no such file) -/
  file0 : Option (List Byte)

/-- One pass through the receive loop, as the loop saw it. -/
structure Iter where
  /-- `received_size` when the loop condition was evaluated -/
  counter : Int
  /-- `to_receive` -/
  req : Nat
  /-- `bytes_read` -/
  ret : Int
  deriving DecidableEq, Repr

/-- Outcome of the receive loop (lines 105-139). -/
structure LoopOut where
  exit : Exit
  /-- `received_size` when the loop was left -/
  received_size : Int
  /-- bytes appended to the output file by the `write` calls, in order -/
  written : List Byte
  /-- system calls made by the loop, in order -/
  acts : List Act
  /-- the iterations started, in order -/
  iters : List Iter
  deriving DecidableEq, Repr

/-- `to_receive = (filesize - received_size > CHUNK_SIZE) ? CHUNK_SIZE
                 : (size_t)(filesize - received_size)` -/
def to_receive (filesize received_size : Int) : Nat :=
  if filesize - received_size > (CHUNK_SIZE : Int) then CHUNK_SIZE
  else (filesize - received_size).toNat

/-- The receive loop of `handle_client`, entered with the given `received_size`
after `nwrites` calls of `write`. -/
def recv_loop (filesize : Int) (wr : Nat → List Byte → Int) :
    List RecvResult → Int → Nat → LoopOut
  | script, received_size, nwrites =>
    if received_size < filesize then
      match script with
      | [] => { exit := .blocked, received_size := received_size, written := [], acts := [],
                iters := [] }
      | r :: script' =>
        let req := to_receive filesize received_size
        let bytes_read := r.ret
        let it : Iter := { counter := received_size, req := req, ret := bytes_read }
        if bytes_read < 0 then
          { exit := .recvError, received_size := received_size, written := [],
            acts := [.recv req bytes_read, .closeOut, .unlinkOut, .closeConn], iters := [it] }
        else if bytes_read = 0 then
          { exit := .finished, received_size := received_size, written := [],
            acts := [.recv req bytes_read], iters := [it] }
        else
          let w := wr nwrites r.bytes
          if w < 0 then
            { exit := .writeError, received_size := received_size, written := [],
              acts := [.recv req bytes_read, .write r.bytes w, .closeOut, .unlinkOut, .closeConn],
              iters := [it] }
          else
            let out := recv_loop filesize wr script' (received_size + bytes_read) (nwrites + 1)
            { out with
              written := r.bytes.take w.toNat ++ out.written
              acts := .recv req bytes_read :: .write r.bytes w :: out.acts
              iters := it :: out.iters }
    else
      { exit := .finished, received_size := received_size, written := [], acts := [], iters := [] }

/-- Outcome of `handle_client`. -/
structure Outcome where
  exit : Exit
  /-- system calls in program order -/
  acts : List Act
  /-- the output file when the function returns (`none`: no such file) -/
  file : Option (List Byte)
  /-- `received_size` at the end (0 when the loop was not reached) -/
  received_size : Int
  /-- iterations of the receive loop -/
  iters : List Iter
  deriving DecidableEq, Repr

/-- Trace entries of the reads issued by `recv_all`. -/
def readActs (reads : List (Nat × Int)) : List Act := reads.map (fun p => Act.recv p.1 p.2)

/-- The function `handle_client(conn_fd, client_addr)`. -/
def handle_client (w : World) : Outcome :=
  -- 1. Receive RPC method call (Metadata Header)
  let hdr := recv_all sizeofMetadata w.recvs
  match hdr.ret with
  | none =>
    { exit := .blocked, acts := readActs hdr.reads, file := w.file0, received_size := 0,
      iters := [] }
  | some bytes_read =>
    if bytes_read ≤ 0 then
      { exit := .headerFailed, acts := readActs hdr.reads ++ [.closeConn], file := w.file0,
        received_size := 0, iters := [] }
    else
      let metadata := parseMetadata hdr.buf
      -- Ensure strings are null-terminated for safety
      let method := metadata.method.set 31 0
      if !strcmp_eq method UploadFile then
        { exit := .invalidMethod, acts := readActs hdr.reads ++ [.closeConn], file := w.file0,
          received_size := 0, iters := [] }
      else
        -- 2. Send acknowledgment; create the directory; open the output file
        if !w.openOk then
          { exit := .openFailed,
            acts := readActs hdr.reads ++ [.send 200, .mkdir, .openOut false, .closeConn],
            file := w.file0, received_size := 0, iters := [] }
        else
          -- 3. Handle file streaming
          let lp := recv_loop metadata.filesize w.writes hdr.rest 0 0
          let pre := readActs hdr.reads ++ [.send 200, .mkdir, .openOut true]
          match lp.exit with
          | .finished =>
            -- 4. Send final RPC response
            if lp.received_size = metadata.filesize then
              { exit := .finished,
                acts := pre ++ lp.acts ++ [.closeOut, .send 201, .closeConn],
                file := some lp.written, received_size := lp.received_size, iters := lp.iters }
            else
              { exit := .finished,
                acts := pre ++ lp.acts ++ [.closeOut, .unlinkOut, .send 500, .closeConn],
                file := none, received_size := lp.received_size, iters := lp.iters }
          | .blocked =>
            { exit := .blocked, acts := pre ++ lp.acts, file := some lp.written,
              received_size := lp.received_size, iters := lp.iters }
          | e =>
            -- the loop returned after `close(fd); unlink(output_path); close(conn_fd);`
            { exit := e, acts := pre ++ lp.acts, file := none,
              received_size := lp.received_size, iters := lp.iters }

/-- Status codes sent on the connection, in order. -/
def sentCodes : List Act → List Int
  | [] => []
  | .send c :: as => c :: sentCodes as
  | _ :: as => sentCodes as

/-- Encoding of a header: the three fields laid out as in `Metadata`. -/
def encodeInt64 (n : Int) : List Byte :=
  let u := (n % 2 ^ 64).toNat
  (List.range 8).map (fun i => u / 256 ^ i % 256)

/-- A header announcing 55 bytes for the file `a`. -/
def hdr55 : List Byte :=
  UploadFile ++ List.replicate 22 0 ++ ([97] ++ List.replicate 255 0) ++ encodeInt64 55

/-- The scenario of the specification: 55 bytes declared, delivered as 40 and 15
(the header itself arriving in two pieces), no fault. -/
def w55 : World where
  recvs := [.data (hdr55.take 100), .data (hdr55.drop 100), .data (List.replicate 40 7),
            .data (List.replicate 15 9)]
  openOk := true
  writes := fun _ bs => (bs.length : Int)
  file0 := none

end RpcServer

/-! ## Practice 1: the text client (receiver of the file bytes), `client.c` -/

namespace TextClient

/-- `#define BUFFER_SIZE 4096` -/
def BUFFER_SIZE : Nat := 4096

/-- `#define REQUEST_FILE "source_file.txt"` -/
def REQUEST_FILE : List Byte :=
  [115, 111, 117, 114, 99, 101, 95, 102, 105, 108, 101, 46, 116, 120, 116]

/-- The string literal `"ERROR:"`. -/
def ERROR_ : List Byte := [69, 82, 82, 79, 82, 58]

/-- The string literal `"OK:"`. -/
def OK_ : List Byte := [79, 75, 58]

/-- The C `isspace` test in the "C" locale. -/
def isspace (b : Byte) : Bool := b == 32 || (9 ≤ b && b ≤ 13)

/-- The C `isdigit` test. -/
def isdigit (b : Byte) : Bool := 48 ≤ b && b ≤ 57

/-- Value of a run of decimal digits, most significant first. -/
def digitsValue (ds : List Byte) : Nat := ds.foldl (fun acc d => acc * 10 + (d - 48)) 0

/-- Saturation of a conversion result to the range of `long long`. -/
def clampLL (v : Int) : Int :=
  if v > 2 ^ 63 - 1 then 2 ^ 63 - 1 else if v < -(2 ^ 63) then -(2 ^ 63) else v

/-- The conversion `%lld` of `sscanf`: white space is skipped, an optional sign is
read, then the longest run of digits; without a digit the conversion fails. -/
def scan_lld (s : List Byte) : Option Int :=
  let s1 := s.dropWhile isspace
  let neg := s1.head? == some 45
  let s2 := if s1.head? == some 45 || s1.head? == some 43 then s1.tail else s1
  let ds := s2.takeWhile isdigit
  if ds.isEmpty then none
  else some (clampLL (if neg then -(digitsValue ds : Int) else (digitsValue ds : Int)))

/-- `sscanf(header_buffer, "OK:%lld", &file_size)`: `some v` when it returns 1 and
stores `v`, `none` when it returns anything else. -/
def sscanf_OK_lld (buf : List Byte) : Option Int :=
  match cstr buf with
  | 79 :: 75 :: 58 :: t => scan_lld t
  | _ => none

/-- Content of `header_buffer` (1024 bytes, zero-initialised) after the header
`recv` stored `bytes` and `header_buffer[valread] = 0` was executed. -/
def header_buffer (bytes : List Byte) : List Byte :=
  (bytes ++ List.replicate (1024 - bytes.length) 0).set bytes.length 0

/-- What the client makes of the bytes of the header read. -/
inductive Header where
  /-- the header starts with `ERROR:` -/
  | serverError
  /-- the header starts neither with `ERROR:` nor with `OK:` -/
  | unexpected
  /-- `sscanf` did not return 1 -/
  | parseError
  /-- the header is accepted and announces `file_size` bytes -/
  | accepted (file_size : Int)
  deriving DecidableEq, Repr

/-- Lines 70-89 of `main`: the decoding of the header bytes the read returned. -/
def decodeHeader (bytes : List Byte) : Header :=
  let buf := header_buffer bytes
  if strncmp_eq buf ERROR_ 6 then .serverError
  else if !strncmp_eq buf OK_ 3 then .unexpected
  else match sscanf_OK_lld buf with
    | none => .parseError
    | some file_size => .accepted file_size

/-- System calls and library calls of `main`, from the request on. -/
inductive Act where
  /-- `send(sock, REQUEST_FILE, strlen(REQUEST_FILE), 0)` returned `ret` -/
  | send (bytes : List Byte) (ret : Int)
  /-- `recv(sock, _, req, 0)` returned `ret` -/
  | recv (req : Nat) (ret : Int)
  /-- `fopen(SAVE_AS_FILE, "wb")`, `ok` iff it returned a stream -/
  | fopen (ok : Bool)
  /-- `fwrite(file_buffer, 1, offered.length, fp)` stored `stored` bytes -/
  | fwrite (offered : List Byte) (stored : Nat)
  /-- `fclose(fp)` -/
  | fclose
  /-- `close(sock)` -/
  | close
  deriving DecidableEq, Repr

/-- The point at which `main` goes to `cleanup` (or blocks). -/
inductive Exit where
  /-- a `recv` never returned -/
  | blocked
  /-- sending the request failed (line 57) -/
  | sendFailed
  /-- the header read returned a value `<= 0` (line 65) -/
  | headerFailed
  /-- the header was not accepted (lines 72-89) -/
  | rejected (h : Header)
  /-- `fopen` failed (line 96) -/
  | fopenFailed
  /-- the receive loop was left, by its condition or by `break` (line 127) -/
  | finished
  deriving DecidableEq, Repr

/-- Everything `main` is given by its environment once it is connected. -/
structure World where
  /-- value returned by the `send` of the request -/
  sendRet : Int
  /-- results of the successive `recv` calls on `sock`; the first one is the header read -/
  recvs : List RecvResult
  /-- whether `fopen` succeeds -/
  fopenOk : Bool
  /-- number of bytes the `i`-th `fwrite` call (counted from 0) stores of the bytes offered -/
  fwrites : Nat → List Byte → Nat
  /-- content of `received_source_file.txt` before the run (`none`: no such file) -/
  file0 : Option (List Byte)

/-- One pass through the receive loop, as the loop saw it. -/
structure Iter where
  /-- `bytes_received` when the loop condition was evaluated -/
  counter : Int
  /-- `bytes_to_recv` -/
  req : Nat
  /-- `valread` -/
  ret : Int
  deriving DecidableEq, Repr

/-- Outcome of the receive loop (lines 103-125). -/
structure LoopOut where
  /-- `blocked` or `finished` -/
  exit : Exit
  /-- `bytes_received` when the loop was left -/
  bytes_received : Int
  /-- bytes the `fwrite` calls stored, in order -/
  written : List Byte
  /-- calls made by the loop, in order -/
  acts : List Act
  /-- the iterations started, in order -/
  iters : List Iter
  deriving DecidableEq, Repr

/-- `bytes_to_recv = (remaining_bytes < BUFFER_SIZE) ? remaining_bytes : BUFFER_SIZE` -/
def bytes_to_recv (file_size bytes_received : Int) : Nat :=
  let remaining_bytes := file_size - bytes_received
  if remaining_bytes < (BUFFER_SIZE : Int) then remaining_bytes.toNat else BUFFER_SIZE

/-- The receive loop of `main`, entered with the given `bytes_received` after
`nwrites` calls of `fwrite`. -/
def recv_loop (file_size : Int) (fw : Nat → List Byte → Nat) :
    List RecvResult → Int → Nat → LoopOut
  | script, bytes_received, nwrites =>
    if bytes_received < file_size then
      match script with
      | [] => { exit := .blocked, bytes_received := bytes_received, written := [], acts := [],
                iters := [] }
      | r :: script' =>
        let req := bytes_to_recv file_size bytes_received
        let valread := r.ret
        let it : Iter := { counter := bytes_received, req := req, ret := valread }
        if valread ≤ 0 then
          { exit := .finished, bytes_received := bytes_received, written := [],
            acts := [.recv req valread], iters := [it] }
        else
          let stored := fw nwrites r.bytes
          let out := recv_loop file_size fw script' (bytes_received + valread) (nwrites + 1)
          { out with
            written := r.bytes.take stored ++ out.written
            acts := .recv req valread :: .fwrite r.bytes stored :: out.acts
            iters := it :: out.iters }
    else
      { exit := .finished, bytes_received := bytes_received, written := [], acts := [],
        iters := [] }

/-- Outcome of `main`. -/
structure Outcome where
  exit : Exit
  /-- calls in program order -/
  acts : List Act
  /-- `received_source_file.txt` when the program exits (`none`: no such file) -/
  file : Option (List Byte)
  /-- `file_size` (0 when no header was accepted) -/
  file_size : Int
  /-- `bytes_received` at the end -/
  bytes_received : Int
  /-- iterations of the receive loop -/
  iters : List Iter
  deriving DecidableEq, Repr

/-- The function `main` of the client, from the request (line 56) to `return 0`. -/
def main (w : World) : Outcome :=
  let sendAct := Act.send REQUEST_FILE w.sendRet
  -- 2. Client sends the desired filename
  if w.sendRet < 0 then
    { exit := .sendFailed, acts := [sendAct, .close], file := w.file0, file_size := 0,
      bytes_received := 0, iters := [] }
  else
    -- 3. Client waits for server response
    match w.recvs with
    | [] =>
      { exit := .blocked, acts := [sendAct], file := w.file0, file_size := 0,
        bytes_received := 0, iters := [] }
    | h :: payload =>
      let valread := h.ret
      let hdrAct := Act.recv 1023 valread
      if valread ≤ 0 then
        { exit := .headerFailed, acts := [sendAct, hdrAct, .close], file := w.file0,
          file_size := 0, bytes_received := 0, iters := [] }
      else
        match decodeHeader h.bytes with
        | .accepted file_size =>
          -- Open file for writing
          if !w.fopenOk then
            { exit := .fopenFailed, acts := [sendAct, hdrAct, .fopen false, .close],
              file := w.file0, file_size := file_size, bytes_received := 0, iters := [] }
          else
            -- 4. Client receives file data
            let lp := recv_loop file_size w.fwrites payload 0 0
            match lp.exit with
            | .blocked =>
              { exit := .blocked, acts := [sendAct, hdrAct, .fopen true] ++ lp.acts,
                file := some lp.written, file_size := file_size,
                bytes_received := lp.bytes_received, iters := lp.iters }
            | _ =>
              -- cleanup: `fclose(fp); close(sock); return 0;`
              { exit := .finished,
                acts := [sendAct, hdrAct, .fopen true] ++ lp.acts ++ [.fclose, .close],
                file := some lp.written, file_size := file_size,
                bytes_received := lp.bytes_received, iters := lp.iters }
        | hd =>
          { exit := .rejected hd, acts := [sendAct, hdrAct, .close], file := w.file0,
            file_size := 0, bytes_received := 0, iters := [] }

end TextClient

/-! ## Practice 2: the streaming loop of the binary client, `rpc_file_transfer_client.c` -/

namespace RpcClient

/-- `#define CHUNK_SIZE 4096` -/
def CHUNK_SIZE : Nat := 4096

/-- The function `recv_all` of the client: the same text as in the server. -/
abbrev recv_all (len : Nat) (script : List RecvResult) : RpcServer.RecvAllOut :=
  RpcServer.recv_all_loop len script 0 []

/-- One `send` call of the streaming loop, as the loop saw it. -/
structure SendEvent where
  /-- `sent` when the call was made -/
  sent : Nat
  /-- `bytes_sent` when the call was made -/
  bytes_sent : Nat
  /-- the bytes `buffer[sent .. bytes_read)` handed to `send` -/
  offered : List Byte
  /-- the value `n` returned -/
  ret : Int
  deriving DecidableEq, Repr

/-- How the streaming loop ends. -/
inductive Exit where
  /-- a `send` never returned -/
  | blocked
  /-- a `send` returned a negative value: `fclose(file); close(sock_fd); return;` (line 167) -/
  | sendError
  /-- `fread` returned 0 and the loop was left (line 177) -/
  | finished
  /-- the bound on the number of `fread` calls of the embedding was reached
  (not reachable from `stream_file`) -/
  | outOfFuel
  deriving DecidableEq, Repr

/-- Outcome of the streaming loop. `sent`, `bytes_sent` and `n` are kept as natural
numbers: they start at 0 and only non-negative values of `n` are added. -/
structure StreamOut where
  exit : Exit
  /-- `bytes_sent` at the end -/
  bytes_sent : Nat
  /-- bytes accepted by the transport, in order -/
  wire : List Byte
  /-- the `send` calls, in order -/
  sends : List SendEvent
  /-- send results not consumed -/
  rest : List Int
  deriving DecidableEq, Repr

/-- The inner loop (lines 164-176), for the chunk `buffer` of `bytes_read = buffer.length`
bytes: `while (sent < bytes_read) { n = send(fd, buffer + sent, bytes_read - sent, 0);
if (n < 0) return; sent += n; bytes_sent += n; }` -/
def send_chunk (buffer : List Byte) : List Int → Nat → Nat → StreamOut
  | script, sent, bytes_sent =>
    if sent < buffer.length then
      match script with
      | [] => { exit := .blocked, bytes_sent := bytes_sent, wire := [], sends := [], rest := [] }
      | n :: script' =>
        let ev : SendEvent :=
          { sent := sent, bytes_sent := bytes_sent, offered := buffer.drop sent, ret := n }
        if n < 0 then
          { exit := .sendError, bytes_sent := bytes_sent, wire := [], sends := [ev],
            rest := script' }
        else
          let out := send_chunk buffer script' (sent + n.toNat) (bytes_sent + n.toNat)
          { out with
            wire := (buffer.drop sent).take n.toNat ++ out.wire
            sends := ev :: out.sends }
    else
      { exit := .finished, bytes_sent := bytes_sent, wire := [], sends := [], rest := script }

/-- The outer loop (lines 160-177): `while ((bytes_read = fread(buffer, 1, CHUNK_SIZE, file)) > 0)`.
`file` is the part of the file after the read position; at most `fuel` calls of `fread`. -/
def stream_loop : Nat → List Byte → List Int → Nat → StreamOut
  | 0, _, script, bytes_sent =>
    { exit := .outOfFuel, bytes_sent := bytes_sent, wire := [], sends := [], rest := script }
  | fuel + 1, file, script, bytes_sent =>
    let buffer := file.take CHUNK_SIZE
    if buffer.length > 0 then
      let c := send_chunk buffer script 0 bytes_sent
      match c.exit with
      | .finished =>
        let out := stream_loop fuel (file.drop CHUNK_SIZE) c.rest c.bytes_sent
        { out with wire := c.wire ++ out.wire, sends := c.sends ++ out.sends }
      | _ => c
    else
      { exit := .finished, bytes_sent := bytes_sent, wire := [], sends := [], rest := script }

/-- Step 6 of `client_upload_file`: stream a file of the given content. Every `fread`
that returns a positive count consumes a byte, so `content.length + 1` calls suffice. -/
def stream_file (content : List Byte) (sends : List Int) : StreamOut :=
  stream_loop (content.length + 1) content sends 0

/-- Bytes of an event the transport accepted. -/
def SendEvent.accepted (e : SendEvent) : List Byte := e.offered.take e.ret.toNat

end RpcClient

/-! ## Practice 1: the text server (sender of the file bytes), `sever.c` -/

namespace TextServer

/-- `#define BUFFER_SIZE 4096` -/
def BUFFER_SIZE : Nat := 4096

/-- `#define TRANSFER_FILE "source_file.txt"` -/
def TRANSFER_FILE : List Byte :=
  [115, 111, 117, 114, 99, 101, 95, 102, 105, 108, 101, 46, 116, 120, 116]

/-- The string `"ERROR:File Not Found"`. -/
def ERROR_NOT_FOUND : List Byte :=
  [69, 82, 82, 79, 82, 58, 70, 105, 108, 101, 32, 78, 111, 116, 32, 70, 111, 117, 110, 100]

/-- The string `"ERROR:Internal Server Error"`. -/
def ERROR_INTERNAL : List Byte :=
  [69, 82, 82, 79, 82, 58, 73, 110, 116, 101, 114, 110, 97, 108, 32, 83, 101, 114, 118, 101, 114,
   32, 69, 114, 114, 111, 114]

/-- Decimal digits of `n`, most significant first, as ASCII; at most `fuel` digits
are produced (`fuel = n + 1` is always enough). -/
def decDigits : Nat → Nat → List Byte
  | 0, _ => []
  | fuel + 1, n => if n < 10 then [48 + n] else decDigits fuel (n / 10) ++ [48 + n % 10]

/-- Output of the conversion `%lld` of `printf`. -/
def fmt_lld (v : Int) : List Byte :=
  if v < 0 then 45 :: decDigits (v.natAbs + 1) v.natAbs else decDigits (v.natAbs + 1) v.natAbs

/-- Bytes of `header_buffer` before its NUL after
`snprintf(header_buffer, sizeof(header_buffer), "OK:%lld", file_size)`; these are the
`strlen(header_buffer)` bytes handed to `send`. The buffer has 64 bytes. -/
def ok_header (file_size : Int) : List Byte := ([79, 75, 58] ++ fmt_lld file_size).take 63

/-- Calls of `handle_client`, as recorded in its trace. -/
inductive Act where
  /-- `recv(client_socket, filename_buffer, 1023, 0)` returned `ret` -/
  | recv (req : Nat) (ret : Int)
  /-- `send(client_socket, offered, offered.length, 0)` returned `ret` -/
  | send (offered : List Byte) (ret : Int)
  /-- `stat(TRANSFER_FILE, &file_stat)`, `ok` iff it returned 0 -/
  | stat (ok : Bool)
  /-- `fopen(TRANSFER_FILE, "rb")`, `ok` iff it returned a stream -/
  | fopen (ok : Bool)
  /-- `fread(file_buffer, 1, BUFFER_SIZE, fp)` returned `n` -/
  | fread (n : Nat)
  /-- `fclose(fp)` -/
  | fclose
  /-- `close(client_socket)` -/
  | close
  deriving DecidableEq, Repr

/-- The point at which `handle_client` goes to `cleanup` (or blocks). -/
inductive Exit where
  /-- a call never returned -/
  | blocked
  /-- the request read returned a value `<= 0` (line 78) -/
  | requestFailed
  /-- the request does not name the served file (line 87) -/
  | notFound
  /-- `stat` failed (line 97) -/
  | statFailed
  /-- `fopen` failed (line 107) -/
  | fopenFailed
  /-- sending the header failed (line 118) -/
  | headerSendFailed
  /-- a payload `send` returned a negative value: `break` (line 133) -/
  | sendError
  /-- the send loop was left by its condition (line 127) -/
  | finished
  deriving DecidableEq, Repr

/-- Everything `handle_client` is given by its environment. -/
structure World where
  /-- the 1024 bytes of `filename_buffer` before the request read (it is not initialised) -/
  prior : List Byte
  /-- result of the request read (`none`: it never returns) -/
  request : Option RecvResult
  /-- `st_size` when `stat` succeeds -/
  stat : Option Int
  /-- whether `fopen` succeeds -/
  fopenOk : Bool
  /-- the bytes of the served file, as `fread` delivers them -/
  content : List Byte
  /-- values returned by the successive `send` calls -/
  sends : List Int

/-- Outcome of the send loop (lines 127-136). -/
structure LoopOut where
  /-- `blocked`, `sendError` or `finished` -/
  exit : Exit
  /-- `total_bytes_sent` when the loop was left -/
  total_bytes_sent : Int
  /-- payload bytes accepted by the transport, in order -/
  wire : List Byte
  /-- calls made by the loop, in order -/
  acts : List Act
  deriving DecidableEq, Repr

/-- The send loop of `handle_client`:
`while (total_bytes_sent < file_size && (bytes_read = fread(...)) > 0)
 { bytes_sent = send(sock, file_buffer, bytes_read, 0); if (bytes_sent < 0) break;
   total_bytes_sent += bytes_sent; }`.
`file` is the part of the file after the read position. -/
def send_loop (file_size : Int) : List Int → List Byte → Int → LoopOut
  | script, file, total_bytes_sent =>
    if total_bytes_sent < file_size then
      let buffer := file.take BUFFER_SIZE
      if buffer.length > 0 then
        match script with
        | [] => { exit := .blocked, total_bytes_sent := total_bytes_sent, wire := [],
                  acts := [.fread buffer.length] }
        | bytes_sent :: script' =>
          if bytes_sent < 0 then
            { exit := .sendError, total_bytes_sent := total_bytes_sent, wire := [],
              acts := [.fread buffer.length, .send buffer bytes_sent] }
          else
            let out := send_loop file_size script' (file.drop BUFFER_SIZE)
              (total_bytes_sent + bytes_sent)
            { out with
              wire := buffer.take bytes_sent.toNat ++ out.wire
              acts := .fread buffer.length :: .send buffer bytes_sent :: out.acts }
      else
        { exit := .finished, total_bytes_sent := total_bytes_sent, wire := [],
          acts := [.fread 0] }
    else
      { exit := .finished, total_bytes_sent := total_bytes_sent, wire := [], acts := [] }

/-- Outcome of `handle_client`. -/
structure Outcome where
  exit : Exit
  /-- calls in program order -/
  acts : List Act
  /-- the header bytes handed to `send` (empty when no header was sent) -/
  header : List Byte
  /-- payload bytes accepted by the transport, in order -/
  wire : List Byte
  /-- `total_bytes_sent` at the end -/
  total_bytes_sent : Int
  deriving DecidableEq, Repr

/-- Content of `filename_buffer` after the request read stored `bytes` and
`filename_buffer[sizeof(filename_buffer) - 1] = '\0'` was executed. -/
def filename_buffer (prior bytes : List Byte) : List Byte :=
  ((bytes ++ prior.drop bytes.length).take 1024).set 1023 0

/-- An error reply: `snprintf(header_buffer, 64, msg); send(...); goto cleanup;`
(`fp` is still `NULL`). -/
def reply_error (pre : List Act) (msg : List Byte) (e : Exit) (sends : List Int) : Outcome :=
  match sends with
  | [] => { exit := .blocked, acts := pre, header := msg, wire := [], total_bytes_sent := 0 }
  | s :: _ =>
    { exit := e, acts := pre ++ [.send msg s, .close], header := msg, wire := [],
      total_bytes_sent := 0 }

/-- The function `handle_client(arg)`. -/
def handle_client (w : World) : Outcome :=
  match w.request with
  | none => { exit := .blocked, acts := [], header := [], wire := [], total_bytes_sent := 0 }
  | some r =>
    -- 1. Server waits for filename request
    if r.ret ≤ 0 then
      { exit := .requestFailed, acts := [.recv 1023 r.ret, .close], header := [], wire := [],
        total_bytes_sent := 0 }
    else
      -- Check if the requested file is the one we serve
      if !strcmp_eq (filename_buffer w.prior r.bytes) TRANSFER_FILE then
        reply_error [.recv 1023 r.ret] ERROR_NOT_FOUND .notFound w.sends
      else
        match w.stat with
        | none => reply_error [.recv 1023 r.ret, .stat false] ERROR_INTERNAL .statFailed w.sends
        | some file_size =>
          if !w.fopenOk then
            reply_error [.recv 1023 r.ret, .stat true, .fopen false] ERROR_INTERNAL .fopenFailed
              w.sends
          else
            -- 2. Server sends file size
            let pre : List Act := [.recv 1023 r.ret, .stat true, .fopen true]
            let hdr := ok_header file_size
            match w.sends with
            | [] => { exit := .blocked, acts := pre, header := hdr, wire := [],
                      total_bytes_sent := 0 }
            | s :: sends =>
              if s < 0 then
                { exit := .headerSendFailed, acts := pre ++ [.send hdr s, .fclose, .close],
                  header := hdr, wire := [], total_bytes_sent := 0 }
              else
                -- 3. Server sends file data
                let lp := send_loop file_size sends w.content 0
                match lp.exit with
                | .blocked =>
                  { exit := .blocked, acts := pre ++ [.send hdr s] ++ lp.acts, header := hdr,
                    wire := lp.wire, total_bytes_sent := lp.total_bytes_sent }
                | e =>
                  { exit := e, acts := pre ++ [.send hdr s] ++ lp.acts ++ [.fclose, .close],
                    header := hdr, wire := lp.wire, total_bytes_sent := lp.total_bytes_sent }

end TextServer

/-! ## Concrete scenarios -/

namespace Scenario

/-- Payload reads of the 55-byte scenario: 40 bytes, then 15. -/
def reads55 : List RecvResult := [.data (List.replicate 40 7), .data (List.replicate 15 9)]

/-- A peer that delivers 40 bytes and then closes. -/
def reads40closed : List RecvResult := [.data (List.replicate 40 7), .closed]

/-- A storage `write` that always stores everything offered. -/
def writeAll : Nat → List Byte → Int := fun _ bs => (bs.length : Int)

/-- An `fwrite` that always stores everything offered. -/
def fwriteAll : Nat → List Byte → Nat := fun _ bs => bs.length

/-- The sender announces 55 bytes, delivers 40 and closes. -/
def wEarlyClose : RpcServer.World where
  recvs := [.data RpcServer.hdr55, .data (List.replicate 40 7), .closed]
  openOk := true
  writes := writeAll
  file0 := none

/-- A header whose method is `Download`. -/
def hdrDownload : List Byte :=
  [68, 111, 119, 110, 108, 111, 97, 100] ++ List.replicate 24 0 ++ ([97] ++ List.replicate 255 0)
    ++ RpcServer.encodeInt64 55

/-- A request with an unknown method, followed by payload bytes. -/
def wDownload : RpcServer.World where
  recvs := [.data hdrDownload, .data (List.replicate 40 7)]
  openOk := true
  writes := writeAll
  file0 := none

/-- Five bytes delivered as 2 + 3. -/
def reads5 : List RecvResult := [.data [1, 2], .data [3, 4, 5]]

end Scenario

namespace Scenario

/-- A header announcing 5 bytes for the file `a`. -/
def hdr5 : List Byte :=
  RpcServer.UploadFile ++ List.replicate 22 0 ++ ([97] ++ List.replicate 255 0)
    ++ RpcServer.encodeInt64 5

/-- Five payload bytes arrive in one read; the `write` stores only three of them and
returns 3 (a short write, as on a full disk). -/
def wShortWrite : RpcServer.World where
  recvs := [.data hdr5, .data [1, 2, 3, 4, 5]]
  openOk := true
  writes := fun _ _ => 3
  file0 := none

/-- The text server announces 10 bytes (`OK:10`), delivers 4 and closes. -/
def wPremature : TextClient.World where
  sendRet := 15
  recvs := [.data [79, 75, 58, 49, 48], .data [1, 2, 3, 4], .closed]
  fopenOk := true
  fwrites := fwriteAll
  file0 := none

/-- The served file has 5 bytes; the header `OK:5` goes out whole, the payload `send`
accepts 3 of the 5 bytes offered. -/
def wPartialSend : TextServer.World where
  prior := List.replicate 1024 0
  request := some (.data TextServer.TRANSFER_FILE)
  stat := some 5
  fopenOk := true
  content := [1, 2, 3, 4, 5]
  sends := [4, 3]

end Scenario

/-! ## Practice 3: the message-passing receiver, `MPI.c` -/

namespace Mpi

/-- `#define CHUNK_SIZE 4096` -/
def CHUNK_SIZE : Nat := 4096

/-- Calls of `run_server` after the metadata was received. -/
inductive Act where
  /-- `MPI_Send(&value, 1, MPI_INT, CLIENT_RANK, tag, MPI_COMM_WORLD)` -/
  | send (tag : Nat) (value : Int)
  /-- `fopen("received_output.bin", "wb")` -/
  | fopen
  /-- `MPI_Recv(buffer, maxCount, MPI_CHAR, CLIENT_RANK, 2, ...)` received `count` bytes -/
  | recv (maxCount : Nat) (count : Nat)
  /-- `fwrite(buffer, 1, count, f)` with the given bytes -/
  | fwrite (bytes : List Byte)
  /-- `fclose(f)` -/
  | fclose
  deriving DecidableEq, Repr

/-- How a run of `run_server` ends. -/
inductive Exit where
  /-- an `MPI_Recv` never returned (no further message) -/
  | blocked
  /-- the end of the function was reached -/
  | finished
  deriving DecidableEq, Repr

/-- One pass through the receive loop, as the loop saw it. -/
structure Iter where
  /-- `total_received` when the loop condition was evaluated -/
  counter : Int
  /-- the count passed to `MPI_Recv` -/
  maxCount : Nat
  /-- the `count` reported by `MPI_Get_count` -/
  count : Nat
  deriving DecidableEq, Repr

/-- Outcome of the receive loop (lines 53-60). -/
structure LoopOut where
  exit : Exit
  /-- `total_received` when the loop was left -/
  total_received : Int
  /-- bytes handed to `fwrite`, in order -/
  written : List Byte
  /-- calls made by the loop, in order -/
  acts : List Act
  /-- the iterations started, in order -/
  iters : List Iter
  deriving DecidableEq, Repr

/-- The receive loop of `run_server`:
`while (total_received < meta.filesize) { MPI_Recv(buffer, CHUNK_SIZE, MPI_CHAR, ...);
MPI_Get_count(&status, MPI_CHAR, &count); fwrite(buffer, 1, count, f);
total_received += count; }`. Each entry of `messages` is one payload message. -/
def recv_loop (filesize : Int) : List (List Byte) → Int → LoopOut
  | messages, total_received =>
    if total_received < filesize then
      match messages with
      | [] => { exit := .blocked, total_received := total_received, written := [], acts := [],
                iters := [] }
      | m :: messages' =>
        let count := m.length
        let out := recv_loop filesize messages' (total_received + (count : Int))
        { out with
          written := m ++ out.written
          acts := .recv CHUNK_SIZE count :: .fwrite m :: out.acts
          iters := { counter := total_received, maxCount := CHUNK_SIZE, count := count }
            :: out.iters }
    else
      { exit := .finished, total_received := total_received, written := [], acts := [],
        iters := [] }

/-- Outcome of `run_server`. -/
structure Outcome where
  exit : Exit
  /-- `total_received` at the end -/
  total_received : Int
  /-- bytes handed to `fwrite`, in order -/
  written : List Byte
  /-- `final_status`, once it is computed -/
  final_status : Option Int
  /-- calls in program order -/
  acts : List Act
  /-- iterations of the receive loop -/
  iters : List Iter
  deriving DecidableEq, Repr

/-- The function `run_server(meta_type)` once the metadata message announcing
`filesize` bytes has been received (`fopen` is not checked by the source and is taken to
succeed). -/
def run_server (filesize : Int) (messages : List (List Byte)) : Outcome :=
  -- 2. Send ACK (200 OK); 3. Receive file stream
  let lp := recv_loop filesize messages 0
  match lp.exit with
  | .blocked =>
    { exit := .blocked, total_received := lp.total_received, written := lp.written,
      final_status := none, acts := [.send 1 200, .fopen] ++ lp.acts, iters := lp.iters }
  | .finished =>
    -- 4. Final status
    let final_status : Int := if lp.total_received = filesize then 201 else 500
    { exit := .finished, total_received := lp.total_received, written := lp.written,
      final_status := some final_status,
      acts := [.send 1 200, .fopen] ++ lp.acts ++ [.fclose, .send 3 final_status],
      iters := lp.iters }

end Mpi

namespace Scenario

/-- A header whose method is `DeleteFile`. -/
def hdrDelete : List Byte :=
  [68, 101, 108, 101, 116, 101, 70, 105, 108, 101] ++ List.replicate 22 0
    ++ ([97] ++ List.replicate 255 0) ++ RpcServer.encodeInt64 0

/-- A request with the method `DeleteFile`, received whole. -/
def wDelete : RpcServer.World where
  recvs := [.data hdrDelete]
  openOk := true
  writes := writeAll
  file0 := none

/-- The request read returns the 15 bytes of `source_file.txt`; the receive buffer held
the byte 7 everywhere before. -/
def wGarbage : TextServer.World where
  prior := List.replicate 1024 7
  request := some (.data TextServer.TRANSFER_FILE)
  stat := some 5
  fopenOk := true
  content := [1, 2, 3, 4, 5]
  sends := [20, 5]

/-- The request read returns 17 bytes: `source_file.txt`, a NUL and the letter `x`. -/
def wTrailing : TextServer.World where
  prior := List.replicate 1024 0
  request := some (.data (TextServer.TRANSFER_FILE ++ [0, 120]))
  stat := some 5
  fopenOk := true
  content := [1, 2, 3, 4, 5]
  sends := [4, 5]

/-- The request read returns the 7 bytes of `source_`; the receive buffer held
`source_file.txt` followed by zeros before (left there by an earlier use of the stack). -/
def wPrefix : TextServer.World where
  prior := TextServer.TRANSFER_FILE ++ List.replicate 1009 0
  request := some (.data (TextServer.TRANSFER_FILE.take 7))
  stat := some 5
  fopenOk := true
  content := [1, 2, 3, 4, 5]
  sends := [4, 5]

end Scenario

/-! ## Expected traces

The traces the specification describes, written from its words and not from the code:
what `recv_all` is expected to ask of the transport, and what the streaming loop of the
binary client is expected to offer to it. The theorems compare them with the traces of
the embedded code. -/

namespace RpcServer

/-- The reads `recv_all` is expected to issue when it meets the results `rs` with `total`
bytes already stored: each read asks for the `len - total` bytes still missing. -/
def expectedReads (len : Nat) : List RecvResult → Nat → List (Nat × Int)
  | [], _ => []
  | r :: rs, total => (len - total, r.ret) :: expectedReads len rs (total + r.bytes.length)

/-- The bytes a list of read results delivers, in order. -/
def delivered (rs : List RecvResult) : List Byte := (rs.map RecvResult.bytes).flatten

end RpcServer

namespace RpcClient

/-- Number of bytes the streaming loop is expected to offer once `b` bytes of a file of
`len` bytes have been accepted: what is left of the 4096-byte chunk that holds byte `b`. -/
def offeredAt (len b : Nat) : Nat := min (CHUNK_SIZE * (b / CHUNK_SIZE + 1)) len - b

/-- Whether each of the send results `ns`, the first one met when `b` bytes have been
accepted, accepts between 1 and the offered number of bytes. -/
def accepts (len : Nat) : List Int → Nat → Bool
  | [], _ => true
  | n :: ns, b =>
    decide (1 ≤ n) && decide (n ≤ (offeredAt len b : Int)) && accepts len ns (b + n.toNat)

/-- Number of bytes the send results `ns` accept in total. -/
def acceptedCount (ns : List Int) : Nat := (ns.map Int.toNat).sum

/-- The `send` calls the loop is expected to make when it meets the results `ns`, the
first one when `b` bytes have been accepted: each call offers the bytes from the first
one not yet accepted up to the end of its 4096-byte chunk. -/
def expectedSends (content : List Byte) : List Int → Nat → List SendEvent
  | [], _ => []
  | n :: ns, b =>
    { sent := b % CHUNK_SIZE, bytes_sent := b,
      offered := (content.take (CHUNK_SIZE * (b / CHUNK_SIZE + 1))).drop b, ret := n }
      :: expectedSends content ns (b + n.toNat)

end RpcClient

/-! # Theorems -/

namespace RpcServer

theorem sentCodes_append (xs ys : List Act) : sentCodes (xs ++ ys) = sentCodes xs ++ sentCodes ys := by
  induction xs with
  | nil => rfl
  | cons a xs ih => cases a <;> simp [sentCodes, ih]

theorem sentCodes_readActs (reads : List (Nat × Int)) : sentCodes (readActs reads) = [] := by
  induction reads with
  | nil => rfl
  | cons p ps ih => simpa [readActs, sentCodes] using ih

theorem recv_all_loop_chunks (len : Nat) (rest : List RecvResult) (cs : List (List Byte)) :
    ∀ (total : Nat) (buf : List Byte), (∀ c ∈ cs, 1 ≤ c.length) →
      total + cs.flatten.length = len →
      (recv_all_loop len (cs.map .data ++ rest) total buf).ret = some (len : Int) ∧
      (recv_all_loop len (cs.map .data ++ rest) total buf).buf = buf ++ cs.flatten ∧
      (recv_all_loop len (cs.map .data ++ rest) total buf).rest = rest := by
  induction cs with
  | nil =>
    intro total buf _ h
    have h' : total = len := by simpa using h
    subst h'
    unfold recv_all_loop
    simp
  | cons c cs ih =>
    intro total buf hpos h
    have hc : 1 ≤ c.length := hpos c (by simp)
    have hlt : total < len := by
      simp only [List.flatten_cons, List.length_append] at h
      omega
    have hret : ¬ ((RecvResult.data c).ret ≤ 0) := by
      simp only [RecvResult.ret]
      omega
    have hrec := ih (total + c.length) (buf ++ c) (fun d hd => hpos d (by simp [hd]))
      (by simp only [List.flatten_cons, List.length_append] at h; omega)
    unfold recv_all_loop
    simp only [List.map_cons, List.cons_append, hlt, if_true, hret, if_false]
    simpa [RecvResult.ret, RecvResult.bytes, List.append_assoc] using hrec


theorem sentCodes_recv_loop (filesize : Int) (wr : Nat → List Byte → Int) (script : List RecvResult) :
    ∀ (received : Int) (nw : Nat), sentCodes (recv_loop filesize wr script received nw).acts = [] := by
  induction script with
  | nil =>
    intro received nw
    unfold recv_loop
    split <;> rfl
  | cons r script ih =>
    intro received nw
    unfold recv_loop
    split
    · simp only []
      split
      · rfl
      · split
        · rfl
        · split
          · rfl
          · simpa [sentCodes] using ih _ _
    · rfl

theorem recv_loop_chunks (filesize : Int) (wr : Nat → List Byte → Int) (rest : List RecvResult)
    (hwrite : ∀ i bs, wr i bs = (bs.length : Int)) (cs : List (List Byte)) :
    ∀ (received : Int) (nw : Nat), (∀ c ∈ cs, 1 ≤ c.length ∧ c.length ≤ CHUNK_SIZE) →
      0 ≤ received → received + (cs.flatten.length : Int) = filesize →
      (recv_loop filesize wr (cs.map .data ++ rest) received nw).exit = .finished ∧
      (recv_loop filesize wr (cs.map .data ++ rest) received nw).received_size = filesize ∧
      (recv_loop filesize wr (cs.map .data ++ rest) received nw).written = cs.flatten ∧
      (∀ it ∈ (recv_loop filesize wr (cs.map .data ++ rest) received nw).iters,
        1 ≤ it.ret ∧ it.ret ≤ (it.req : Int)) := by
  induction cs with
  | nil =>
    intro received nw _ _ h
    have h' : received = filesize := by simpa using h
    subst h'
    unfold recv_loop
    simp
  | cons c cs ih =>
    intro received nw hpos h0 h
    obtain ⟨hc1, hc2⟩ := hpos c (by simp)
    simp only [List.flatten_cons, List.length_append, Nat.cast_add] at h
    have hlt : received < filesize := by omega
    have hrec := ih (received + (c.length : Int)) (nw + 1) (fun d hd => hpos d (by simp [hd]))
      (by omega) (by omega)
    have hreq : (c.length : Int) ≤ (to_receive filesize received : Int) := by
      unfold to_receive
      split
      · exact_mod_cast hc2
      · have : (0:Int) ≤ filesize - received := by omega
        rw [Int.toNat_of_nonneg this]
        omega
    unfold recv_loop
    have e1 : ¬ ((c.length : Int) < 0) := by omega
    have e2 : ¬ ((c.length : Int) = 0) := by omega
    simp only [List.map_cons, List.cons_append, hlt, if_true, RecvResult.ret, RecvResult.bytes,
      hwrite, e1, e2, if_false, Int.toNat_ofNat, List.take_length]
    refine ⟨hrec.1, hrec.2.1, by rw [hrec.2.2.1]; simp, ?_⟩
    intro it hit
    simp only [List.mem_cons] at hit
    rcases hit with rfl | hit
    · exact ⟨by simpa using hc1, hreq⟩
    · exact hrec.2.2.2 it hit


/-- C1 (round trip on the binary receiver). Let the header arrive in any split into
non-empty reads, carry the method `UploadFile` and announce `n` bytes, let `open` succeed,
let the `n` payload bytes arrive in any split into reads of 1 to `CHUNK_SIZE` bytes, and
let every `write` store all it is offered. Then `handle_client` runs to its end, the output
file holds exactly the payload bytes in order, `received_size = n`, the codes sent are 200
and then 201, and every payload read returned between 1 and the requested number of bytes. -/
theorem handle_client_round_trip (w : World)
    (hdr : List Byte) (hchunks pchunks : List (List Byte)) (rest : List RecvResult)
    (hrecvs : w.recvs = hchunks.map .data ++ (pchunks.map .data ++ rest))
    (hsplit : hchunks.flatten = hdr) (hlen : hdr.length = sizeofMetadata)
    (hpos : ∀ c ∈ hchunks, 1 ≤ c.length)
    (hmethod : cstr ((parseMetadata hdr).method.set 31 0) = UploadFile)
    (hsize : (parseMetadata hdr).filesize = (pchunks.flatten.length : Int))
    (hreads : ∀ c ∈ pchunks, 1 ≤ c.length ∧ c.length ≤ CHUNK_SIZE)
    (hopen : w.openOk = true)
    (hwrite : ∀ i bs, w.writes i bs = (bs.length : Int)) :
    (handle_client w).exit = .finished ∧
    (handle_client w).file = some pchunks.flatten ∧
    (handle_client w).received_size = (pchunks.flatten.length : Int) ∧
    sentCodes (handle_client w).acts = [200, 201] ∧
    (∀ it ∈ (handle_client w).iters, 1 ≤ it.ret ∧ it.ret ≤ (it.req : Int)) := by
  obtain ⟨hret, hbuf, hrest⟩ := recv_all_loop_chunks sizeofMetadata (pchunks.map .data ++ rest)
    hchunks 0 [] hpos (by rw [hsplit, hlen]; simp)
  rw [hsplit, List.nil_append] at hbuf
  obtain ⟨lexit, lrecv, lwritten, liters⟩ := recv_loop_chunks (parseMetadata hdr).filesize
    w.writes rest hwrite pchunks 0 0 hreads (le_refl 0) (by rw [hsize]; simp)
  have hm : strcmp_eq ((parseMetadata hdr).method.set 31 0) UploadFile = true := by
    unfold strcmp_eq
    rw [hmethod]
    decide
  have hpos296 : ¬ (((sizeofMetadata : Nat) : Int) ≤ 0) := by decide
  simp only [handle_client, recv_all, hrecvs, hret, hbuf, hrest, hpos296, if_false, hm,
    Bool.not_true, Bool.false_eq_true, hopen, lexit, lrecv, if_true, lwritten, sentCodes_append,
    sentCodes_readActs, sentCodes_recv_loop]
  refine ⟨trivial, trivial, hsize, by simp [sentCodes], liters⟩

set_option maxRecDepth 100000 in
theorem handle_client_round_trip_witness : (handle_client w55).exit = .finished ∧
    (handle_client w55).file = some (List.replicate 40 7 ++ List.replicate 15 9) ∧
    (handle_client w55).received_size = 55 ∧
    sentCodes (handle_client w55).acts = [200, 201] ∧
    (∀ it ∈ (handle_client w55).iters, 1 ≤ it.ret ∧ it.ret ≤ (it.req : Int)) :=
  handle_client_round_trip w55 hdr55 [hdr55.take 100, hdr55.drop 100]
    [List.replicate 40 7, List.replicate 15 9] [] (by rfl) (by decide) (by decide) (by decide)
    (by decide) (by decide) (by decide) (by rfl) (fun _ _ => rfl)

end RpcServer

theorem RpcServer.to_receive_eq (filesize received : Int) (h : received < filesize) :
    (RpcServer.to_receive filesize received : Int) = min (filesize - received) 4096 := by
  unfold RpcServer.to_receive RpcServer.CHUNK_SIZE
  split
  · rename_i h1
    push_cast at h1 ⊢
    omega
  · rename_i h1
    push_cast at h1
    rw [Int.toNat_of_nonneg (by omega)]
    omega

theorem RpcServer.rpc_recv_loop_requests (filesize : Int) (wr : Nat → List Byte → Int)
    (script : List RecvResult) :
    ∀ (received : Int) (nw : Nat),
      ∀ it ∈ (RpcServer.recv_loop filesize wr script received nw).iters,
        it.counter < filesize ∧ (it.req : Int) = min (filesize - it.counter) 4096 := by
  induction script with
  | nil =>
    intro received nw it hit
    unfold RpcServer.recv_loop at hit
    split at hit <;> simp at hit
  | cons r script ih =>
    intro received nw it hit
    unfold RpcServer.recv_loop at hit
    split at hit
    · rename_i hlt
      have hhere : ∀ it : RpcServer.Iter,
          it = { counter := received, req := RpcServer.to_receive filesize received, ret := r.ret } →
          it.counter < filesize ∧ (it.req : Int) = min (filesize - it.counter) 4096 := by
        intro it e
        subst e
        exact ⟨hlt, RpcServer.to_receive_eq _ _ hlt⟩
      simp only [] at hit
      split at hit
      · exact hhere it (by simpa using hit)
      · split at hit
        · exact hhere it (by simpa using hit)
        · split at hit
          · exact hhere it (by simpa using hit)
          · simp only [List.mem_cons] at hit
            rcases hit with e | hit
            · exact hhere it e
            · exact ih _ _ it hit
    · simp at hit

theorem RpcServer.rpc_recv_loop_counter (filesize : Int) (wr : Nat → List Byte → Int)
    (script : List RecvResult) :
    ∀ (received : Int) (nw : Nat),
      (∀ it ∈ (RpcServer.recv_loop filesize wr script received nw).iters, it.ret ≤ (it.req : Int)) →
      (∀ it ∈ (RpcServer.recv_loop filesize wr script received nw).iters,
        received ≤ it.counter ∧ it.counter ≤ filesize ∧ (0 < it.ret → it.counter + it.ret ≤ filesize)) ∧
      received ≤ (RpcServer.recv_loop filesize wr script received nw).received_size ∧
      (received ≤ filesize →
        (RpcServer.recv_loop filesize wr script received nw).received_size ≤ filesize) := by
  induction script with
  | nil =>
    intro received nw _
    unfold RpcServer.recv_loop
    split <;> simp
  | cons r script ih =>
    intro received nw hyp
    unfold RpcServer.recv_loop at hyp ⊢
    split
    · rename_i hlt
      rw [if_pos hlt] at hyp
      have hreq := RpcServer.to_receive_eq _ _ hlt
      simp only [] at hyp ⊢
      split
      · rename_i h1
        rw [if_pos h1] at hyp
        simp only [List.mem_singleton, forall_eq] at hyp ⊢
        exact ⟨⟨le_refl _, le_of_lt hlt, fun h => by omega⟩, le_refl _, fun h => h⟩
      · rename_i h1
        rw [if_neg h1] at hyp
        split
        · rename_i h2
          rw [if_pos h2] at hyp
          simp only [List.mem_singleton, forall_eq] at hyp ⊢
          exact ⟨⟨le_refl _, le_of_lt hlt, fun h => by omega⟩, le_refl _, fun h => h⟩
        · rename_i h2
          rw [if_neg h2] at hyp
          split
          · rename_i h3
            rw [if_pos h3] at hyp
            simp only [List.mem_singleton, forall_eq] at hyp ⊢
            refine ⟨⟨le_refl _, le_of_lt hlt, fun h => by omega⟩, le_refl _, fun h => h⟩
          · rename_i h3
            rw [if_neg h3] at hyp
            simp only [List.mem_cons, forall_eq_or_imp] at hyp ⊢
            obtain ⟨hret, hyp'⟩ := hyp
            obtain ⟨i1, i2, i3⟩ := ih _ _ hyp'
            refine ⟨⟨⟨le_refl _, le_of_lt hlt, fun h => by omega⟩, ?_⟩, by omega, fun _ => i3 (by omega)⟩
            intro it hit
            obtain ⟨j1, j2, j3⟩ := i1 it hit
            exact ⟨by omega, j2, j3⟩
    · rename_i hge
      simp

theorem TextClient.bytes_to_recv_eq (file_size received : Int) (h : received < file_size) :
    (TextClient.bytes_to_recv file_size received : Int) = min (file_size - received) 4096 := by
  unfold TextClient.bytes_to_recv TextClient.BUFFER_SIZE
  simp only []
  split
  · rename_i h1
    push_cast at h1
    rw [Int.toNat_of_nonneg (by omega)]
    omega
  · rename_i h1
    push_cast at h1 ⊢
    omega

theorem TextClient.text_recv_loop_requests (file_size : Int) (fw : Nat → List Byte → Nat)
    (script : List RecvResult) :
    ∀ (received : Int) (nw : Nat),
      ∀ it ∈ (TextClient.recv_loop file_size fw script received nw).iters,
        it.counter < file_size ∧ (it.req : Int) = min (file_size - it.counter) 4096 := by
  induction script with
  | nil =>
    intro received nw it hit
    unfold TextClient.recv_loop at hit
    split at hit <;> simp at hit
  | cons r script ih =>
    intro received nw it hit
    unfold TextClient.recv_loop at hit
    split at hit
    · rename_i hlt
      have hhere : ∀ it : TextClient.Iter,
          it = { counter := received, req := TextClient.bytes_to_recv file_size received,
                 ret := r.ret } →
          it.counter < file_size ∧ (it.req : Int) = min (file_size - it.counter) 4096 := by
        intro it e
        subst e
        exact ⟨hlt, TextClient.bytes_to_recv_eq _ _ hlt⟩
      simp only [] at hit
      split at hit
      · exact hhere it (by simpa using hit)
      · simp only [List.mem_cons] at hit
        rcases hit with e | hit
        · exact hhere it e
        · exact ih _ _ it hit
    · simp at hit

theorem TextClient.text_recv_loop_counter (file_size : Int) (fw : Nat → List Byte → Nat)
    (script : List RecvResult) :
    ∀ (received : Int) (nw : Nat),
      (∀ it ∈ (TextClient.recv_loop file_size fw script received nw).iters,
        it.ret ≤ (it.req : Int)) →
      (∀ it ∈ (TextClient.recv_loop file_size fw script received nw).iters,
        received ≤ it.counter ∧ it.counter ≤ file_size ∧
          (0 < it.ret → it.counter + it.ret ≤ file_size)) ∧
      received ≤ (TextClient.recv_loop file_size fw script received nw).bytes_received ∧
      (received ≤ file_size →
        (TextClient.recv_loop file_size fw script received nw).bytes_received ≤ file_size) := by
  induction script with
  | nil =>
    intro received nw _
    unfold TextClient.recv_loop
    split <;> simp
  | cons r script ih =>
    intro received nw hyp
    unfold TextClient.recv_loop at hyp ⊢
    split
    · rename_i hlt
      rw [if_pos hlt] at hyp
      have hreq := TextClient.bytes_to_recv_eq _ _ hlt
      simp only [] at hyp ⊢
      split
      · rename_i h1
        rw [if_pos h1] at hyp
        simp only [List.mem_singleton, forall_eq] at hyp ⊢
        exact ⟨⟨le_refl _, le_of_lt hlt, fun h => by omega⟩, le_refl _, fun h => h⟩
      · rename_i h1
        rw [if_neg h1] at hyp
        simp only [List.mem_cons, forall_eq_or_imp] at hyp ⊢
        obtain ⟨hret, hyp'⟩ := hyp
        obtain ⟨i1, i2, i3⟩ := ih _ _ hyp'
        refine ⟨⟨⟨le_refl _, le_of_lt hlt, fun h => by omega⟩, ?_⟩, by omega,
          fun _ => i3 (by omega)⟩
        intro it hit
        obtain ⟨j1, j2, j3⟩ := i1 it hit
        exact ⟨by omega, j2, j3⟩
    · rename_i hge
      simp

/-- C2 (capped reads, bounded counter). In the receive loop of the binary server and in the
receive loop of the text client, entered with counter 0 as the programs do, every read
asks for exactly `min (declared_size - counter) 4096` bytes; and whenever no read returns
more than it was asked for, the counter is between 0 and the declared size when each
iteration starts, after the iteration has added what it read, and when the loop is left
(the upper bound at loop exit being meant for a declared size that is not negative). -/
theorem capped_reads_bounded_counter (declared_size : Int)
    (wr : Nat → List Byte → Int) (fw : Nat → List Byte → Nat)
    (rpcReads textReads : List RecvResult)
    (hrpc : ∀ it ∈ (RpcServer.recv_loop declared_size wr rpcReads 0 0).iters,
      it.ret ≤ (it.req : Int))
    (htext : ∀ it ∈ (TextClient.recv_loop declared_size fw textReads 0 0).iters,
      it.ret ≤ (it.req : Int)) :
    ((∀ it ∈ (RpcServer.recv_loop declared_size wr rpcReads 0 0).iters,
        (it.req : Int) = min (declared_size - it.counter) 4096 ∧
        0 ≤ it.counter ∧ it.counter ≤ declared_size ∧
        (0 < it.ret → it.counter + it.ret ≤ declared_size)) ∧
      0 ≤ (RpcServer.recv_loop declared_size wr rpcReads 0 0).received_size ∧
      (0 ≤ declared_size →
        (RpcServer.recv_loop declared_size wr rpcReads 0 0).received_size ≤ declared_size)) ∧
    ((∀ it ∈ (TextClient.recv_loop declared_size fw textReads 0 0).iters,
        (it.req : Int) = min (declared_size - it.counter) 4096 ∧
        0 ≤ it.counter ∧ it.counter ≤ declared_size ∧
        (0 < it.ret → it.counter + it.ret ≤ declared_size)) ∧
      0 ≤ (TextClient.recv_loop declared_size fw textReads 0 0).bytes_received ∧
      (0 ≤ declared_size →
        (TextClient.recv_loop declared_size fw textReads 0 0).bytes_received ≤ declared_size)) := by
  obtain ⟨a1, a2, a3⟩ := RpcServer.rpc_recv_loop_counter declared_size wr rpcReads 0 0 hrpc
  obtain ⟨b1, b2, b3⟩ := TextClient.text_recv_loop_counter declared_size fw textReads 0 0 htext
  refine ⟨⟨fun it hit => ⟨(RpcServer.rpc_recv_loop_requests _ _ _ _ _ it hit).2, a1 it hit⟩, a2, a3⟩,
    ⟨fun it hit => ⟨(TextClient.text_recv_loop_requests _ _ _ _ _ it hit).2, b1 it hit⟩, b2, b3⟩⟩

theorem RpcServer.recv_loop_early_close (filesize : Int) (wr : Nat → List Byte → Int)
    (z : RecvResult) (rest : List RecvResult) (hz : z.ret = 0)
    (hwrite : ∀ i bs, 0 ≤ wr i bs) (cs : List (List Byte)) :
    ∀ (received : Int) (nw : Nat), (∀ c ∈ cs, 1 ≤ c.length ∧ c.length ≤ RpcServer.CHUNK_SIZE) →
      received + (cs.flatten.length : Int) < filesize →
      (RpcServer.recv_loop filesize wr (cs.map .data ++ z :: rest) received nw).exit = .finished ∧
      (RpcServer.recv_loop filesize wr (cs.map .data ++ z :: rest) received nw).received_size
        = received + (cs.flatten.length : Int) := by
  induction cs with
  | nil =>
    intro received nw _ h
    have hlt : received < filesize := by simpa using h
    unfold RpcServer.recv_loop
    simp [hlt, hz]
  | cons c cs ih =>
    intro received nw hpos h
    obtain ⟨hc1, _⟩ := hpos c (by simp)
    simp only [List.flatten_cons, List.length_append, Nat.cast_add] at h
    have hlt : received < filesize := by omega
    have hrec := ih (received + (c.length : Int)) (nw + 1) (fun d hd => hpos d (by simp [hd]))
      (by omega)
    unfold RpcServer.recv_loop
    have e1 : ¬ ((c.length : Int) < 0) := by omega
    have e2 : ¬ ((c.length : Int) = 0) := by omega
    have e3 : ¬ (wr nw c < 0) := not_lt.mpr (hwrite nw c)
    simp only [List.map_cons, List.cons_append, hlt, if_true, RecvResult.ret, RecvResult.bytes,
      e1, e2, e3, if_false, List.flatten_cons, List.length_append, Nat.cast_add]
    exact ⟨hrec.1, by rw [hrec.2]; ring⟩

/-- C3 (early close on the binary receiver). Let the accepted header announce `d` bytes, let
the transport deliver `k < d` payload bytes in any split into reads of 1 to `CHUNK_SIZE`
bytes and then a read that returns 0, no `write` returning an error. Then `handle_client`
leaves the loop with `received_size = k`, the codes sent are 200 and then 500 (never 201),
`unlink` is called and the output file does not exist when the function returns. -/
theorem RpcServer.handle_client_early_close (w : RpcServer.World)
    (hdr : List Byte) (hchunks pchunks : List (List Byte)) (z : RecvResult)
    (rest : List RecvResult) (d : Int)
    (hrecvs : w.recvs = hchunks.map .data ++ (pchunks.map .data ++ z :: rest))
    (hsplit : hchunks.flatten = hdr) (hlen : hdr.length = RpcServer.sizeofMetadata)
    (hpos : ∀ c ∈ hchunks, 1 ≤ c.length)
    (hmethod : cstr ((RpcServer.parseMetadata hdr).method.set 31 0) = RpcServer.UploadFile)
    (hsize : (RpcServer.parseMetadata hdr).filesize = d)
    (hk : (pchunks.flatten.length : Int) < d)
    (hreads : ∀ c ∈ pchunks, 1 ≤ c.length ∧ c.length ≤ RpcServer.CHUNK_SIZE)
    (hz : z.ret = 0)
    (hopen : w.openOk = true)
    (hwrite : ∀ i bs, 0 ≤ w.writes i bs) :
    (RpcServer.handle_client w).exit = .finished ∧
    (RpcServer.handle_client w).received_size = (pchunks.flatten.length : Int) ∧
    RpcServer.sentCodes (RpcServer.handle_client w).acts = [200, 500] ∧
    RpcServer.Act.unlinkOut ∈ (RpcServer.handle_client w).acts ∧
    (RpcServer.handle_client w).file = none := by
  obtain ⟨hret, hbuf, hrest⟩ := RpcServer.recv_all_loop_chunks RpcServer.sizeofMetadata
    (pchunks.map .data ++ z :: rest) hchunks 0 [] hpos (by rw [hsplit, hlen]; simp)
  rw [hsplit, List.nil_append] at hbuf
  obtain ⟨lexit, lrecv⟩ := RpcServer.recv_loop_early_close (RpcServer.parseMetadata hdr).filesize
    w.writes z rest hz hwrite pchunks 0 0 hreads (by rw [hsize]; simpa using hk)
  rw [zero_add] at lrecv
  have hm : strcmp_eq ((RpcServer.parseMetadata hdr).method.set 31 0) RpcServer.UploadFile
      = true := by
    unfold strcmp_eq
    rw [hmethod]
    decide
  have hpos296 : ¬ (((RpcServer.sizeofMetadata : Nat) : Int) ≤ 0) := by decide
  have hne : ¬ ((pchunks.flatten.length : Int) = (RpcServer.parseMetadata hdr).filesize) := by
    rw [hsize]; omega
  simp only [RpcServer.handle_client, RpcServer.recv_all, hrecvs, hret, hbuf, hrest, hpos296,
    if_false, hm, Bool.not_true, Bool.false_eq_true, hopen, lexit, lrecv, hne,
    RpcServer.sentCodes_append, RpcServer.sentCodes_readActs, RpcServer.sentCodes_recv_loop]
  refine ⟨trivial, trivial, by simp [RpcServer.sentCodes], by simp, trivial⟩

/-- C4 (rejection short-circuit). When `recv_all` delivered the whole header and its method,
read as a C string after byte 31 was set to NUL, is not `UploadFile`, then `handle_client`
performs the header reads and `close(conn_fd)` and nothing else: no code is sent (so no
200), `open` is not called, the receive loop is not entered and the output path is left
as it was. -/
theorem RpcServer.handle_client_rejects (w : RpcServer.World) (n : Int)
    (hfull : (RpcServer.recv_all RpcServer.sizeofMetadata w.recvs).ret = some n) (hn : 0 < n)
    (hmethod : cstr ((RpcServer.parseMetadata
        (RpcServer.recv_all RpcServer.sizeofMetadata w.recvs).buf).method.set 31 0)
      ≠ RpcServer.UploadFile) :
    (RpcServer.handle_client w).exit = .invalidMethod ∧
    (RpcServer.handle_client w).acts =
      RpcServer.readActs (RpcServer.recv_all RpcServer.sizeofMetadata w.recvs).reads
        ++ [.closeConn] ∧
    RpcServer.sentCodes (RpcServer.handle_client w).acts = [] ∧
    (∀ ok, RpcServer.Act.openOut ok ∉ (RpcServer.handle_client w).acts) ∧
    (RpcServer.handle_client w).iters = [] ∧
    (RpcServer.handle_client w).file = w.file0 := by
  have hm : strcmp_eq ((RpcServer.parseMetadata
      (RpcServer.recv_all RpcServer.sizeofMetadata w.recvs).buf).method.set 31 0)
      RpcServer.UploadFile = false := by
    unfold strcmp_eq
    simp only [beq_eq_false_iff_ne, ne_eq]
    intro h
    exact hmethod (by rw [h]; decide)
  have hn' : ¬ (n ≤ 0) := not_le.mpr hn
  simp only [RpcServer.handle_client, hfull, hn', if_false, hm, Bool.not_false, if_true,
    RpcServer.sentCodes_append, RpcServer.sentCodes_readActs]
  refine ⟨trivial, trivial, by simp [RpcServer.sentCodes], ?_, trivial, trivial⟩
  intro ok hmem
  simp [RpcServer.readActs] at hmem

namespace RpcServer

theorem recv_all_loop_done (len : Nat) (script : List RecvResult) (total : Nat) (buf : List Byte)
    (h : ¬ total < len) :
    recv_all_loop len script total buf
      = { ret := some (total : Int), buf := buf, reads := [], rest := script } := by
  unfold recv_all_loop
  simp [h]

theorem recv_all_loop_nil (len : Nat) (total : Nat) (buf : List Byte) (h : total < len) :
    recv_all_loop len [] total buf = { ret := none, buf := buf, reads := [], rest := [] } := by
  unfold recv_all_loop
  simp [h]

theorem recv_all_loop_stop (len : Nat) (r : RecvResult) (script : List RecvResult) (total : Nat)
    (buf : List Byte) (h : total < len) (hr : r.ret ≤ 0) :
    recv_all_loop len (r :: script) total buf
      = { ret := some r.ret, buf := buf, reads := [(len - total, r.ret)], rest := script } := by
  unfold recv_all_loop
  simp [h, hr]

theorem recv_all_loop_data (len : Nat) (r : RecvResult) (script : List RecvResult) (total : Nat)
    (buf : List Byte) (h : total < len) (hr : ¬ r.ret ≤ 0) :
    recv_all_loop len (r :: script) total buf
      = { recv_all_loop len script (total + r.bytes.length) (buf ++ r.bytes) with
          reads := (len - total, (r.bytes.length : Int))
            :: (recv_all_loop len script (total + r.bytes.length) (buf ++ r.bytes)).reads } := by
  have hb : r.ret = (r.bytes.length : Int) := by
    cases r with
    | error e => simp [RecvResult.ret] at hr; omega
    | closed => simp [RecvResult.ret] at hr
    | data bs => rfl
  conv_lhs => unfold recv_all_loop
  rw [hb] at hr
  simp only [h, if_true, hb, Int.toNat_ofNat]
  rw [if_neg hr]

theorem recv_all_loop_requests (len : Nat) (script : List RecvResult) :
    ∀ (total : Nat) (buf : List Byte), total ≤ len →
      (∀ p ∈ (recv_all_loop len script total buf).reads, p.2 ≤ (p.1 : Int)) →
      ∀ pre p post, (recv_all_loop len script total buf).reads = pre ++ p :: post →
        (p.1 : Int) = (len : Int) - total - (pre.map Prod.snd).sum ∧
        0 ≤ (pre.map Prod.snd).sum ∧
        (total : Int) + (pre.map Prod.snd).sum + p.2 ≤ len := by
  induction script with
  | nil =>
    intro total buf _ _ pre p post e
    by_cases h : total < len
    · rw [recv_all_loop_nil len total buf h] at e
      simp at e
    · rw [recv_all_loop_done len [] total buf h] at e
      simp at e
  | cons r script ih =>
    intro total buf hle H pre p post e
    by_cases h : total < len
    · by_cases hr : r.ret ≤ 0
      · rw [recv_all_loop_stop len r script total buf h hr] at e
        cases pre with
        | nil =>
          simp only [List.nil_append, List.cons.injEq] at e
          obtain ⟨e1, _⟩ := e
          subst e1
          simp only [List.map_nil, List.sum_nil]
          omega
        | cons q pre => simp at e
      · rw [recv_all_loop_data len r script total buf h hr] at e H
        simp only [List.mem_cons, forall_eq_or_imp] at H
        obtain ⟨H1, H2⟩ := H
        cases pre with
        | nil =>
          simp only [List.nil_append, List.cons.injEq] at e
          obtain ⟨e1, _⟩ := e
          subst e1
          simp only [List.map_nil, List.sum_nil]
          omega
        | cons q pre =>
          simp only [List.cons_append, List.cons.injEq] at e
          obtain ⟨e1, e2⟩ := e
          subst e1
          obtain ⟨i1, i2, i3⟩ := ih (total + r.bytes.length) (buf ++ r.bytes) (by omega) H2
            pre p post e2
          simp only [List.map_cons, List.sum_cons]
          push_cast at i1 i3
          omega
    · rw [recv_all_loop_done len (r :: script) total buf h] at e
      simp at e

theorem recv_all_loop_returns_len (len : Nat) (script : List RecvResult) :
    ∀ (total : Nat) (buf : List Byte), total ≤ len →
      (∀ p ∈ (recv_all_loop len script total buf).reads, p.2 ≤ (p.1 : Int)) →
      ((recv_all_loop len script total buf).ret = some (len : Int) ↔
        ((recv_all_loop len script total buf).ret ≠ none ∧
          ∀ p ∈ (recv_all_loop len script total buf).reads, 0 < p.2)) := by
  induction script with
  | nil =>
    intro total buf hle _
    by_cases h : total < len
    · rw [recv_all_loop_nil len total buf h]
      simp
    · rw [recv_all_loop_done len [] total buf h]
      have : total = len := by omega
      simp [this]
  | cons r script ih =>
    intro total buf hle H
    by_cases h : total < len
    · by_cases hr : r.ret ≤ 0
      · rw [recv_all_loop_stop len r script total buf h hr]
        simp only [Option.some.injEq, ne_eq, reduceCtorEq, not_false_eq_true, List.mem_singleton,
          forall_eq, true_and]
        constructor
        · intro e; omega
        · intro e; omega
      · rw [recv_all_loop_data len r script total buf h hr] at H ⊢
        simp only [List.mem_cons, forall_eq_or_imp] at H ⊢
        obtain ⟨H1, H2⟩ := H
        have := ih (total + r.bytes.length) (buf ++ r.bytes) (by omega) H2
        rw [this]
        have hb : (0 : Int) < (r.bytes.length : Int) := by
          cases r with
          | error e => simp [RecvResult.ret] at hr; omega
          | closed => simp [RecvResult.ret] at hr
          | data bs => simp only [RecvResult.ret, RecvResult.bytes] at hr ⊢; omega
        simp [hb]
    · rw [recv_all_loop_done len (r :: script) total buf h]
      have : total = len := by omega
      simp [this]

theorem recv_all_loop_buffer (len : Nat) (script : List RecvResult) :
    ∀ (total : Nat) (buf : List Byte), total ≤ len →
      (∀ p ∈ (recv_all_loop len script total buf).reads, p.2 ≤ (p.1 : Int)) →
      (recv_all_loop len script total buf).ret = some (len : Int) →
      (recv_all_loop len script total buf).buf
          = buf ++ ((script.map RecvResult.bytes).flatten).take (len - total) ∧
      (recv_all_loop len script total buf).buf.length = buf.length + (len - total) := by
  induction script with
  | nil =>
    intro total buf hle _ hret
    by_cases h : total < len
    · rw [recv_all_loop_nil len total buf h] at hret
      simp at hret
    · rw [recv_all_loop_done len [] total buf h]
      have : len - total = 0 := by omega
      simp [this]
  | cons r script ih =>
    intro total buf hle H hret
    by_cases h : total < len
    · by_cases hr : r.ret ≤ 0
      · rw [recv_all_loop_stop len r script total buf h hr] at hret
        simp only [Option.some.injEq] at hret
        omega
      · rw [recv_all_loop_data len r script total buf h hr] at H hret ⊢
        simp only [List.mem_cons, forall_eq_or_imp] at H
        obtain ⟨H1, H2⟩ := H
        obtain ⟨i1, i2⟩ := ih (total + r.bytes.length) (buf ++ r.bytes) (by omega) H2 hret
        simp only [List.map_cons, List.flatten_cons]
        have hl : r.bytes.length ≤ len - total := by omega
        constructor
        · have e : len - (total + r.bytes.length) = len - total - r.bytes.length := by omega
          rw [i1, List.take_append_eq_append_take, List.take_of_length_le hl, List.append_assoc, e]
        · rw [i2]
          simp only [List.length_append]
          omega
    · rw [recv_all_loop_done len (r :: script) total buf h]
      have : len - total = 0 := by omega
      simp [this]

theorem recv_all_loop_failure (len : Nat) (script : List RecvResult) :
    ∀ (total : Nat) (buf : List Byte), total ≤ len →
      (∀ p ∈ (recv_all_loop len script total buf).reads, p.2 ≤ (p.1 : Int)) →
      ∀ n, (recv_all_loop len script total buf).ret = some n → n ≠ (len : Int) →
        n ≤ 0 ∧ ∃ r, script.find? (fun r => decide (r.ret ≤ 0)) = some r ∧ r.ret = n := by
  induction script with
  | nil =>
    intro total buf hle _ n hret hn
    by_cases h : total < len
    · rw [recv_all_loop_nil len total buf h] at hret
      simp at hret
    · rw [recv_all_loop_done len [] total buf h] at hret
      simp only [Option.some.injEq] at hret
      omega
  | cons r script ih =>
    intro total buf hle H n hret hn
    by_cases h : total < len
    · by_cases hr : r.ret ≤ 0
      · rw [recv_all_loop_stop len r script total buf h hr] at hret
        simp only [Option.some.injEq] at hret
        subst hret
        exact ⟨hr, r, by simp [hr], rfl⟩
      · rw [recv_all_loop_data len r script total buf h hr] at H hret
        simp only [List.mem_cons, forall_eq_or_imp] at H
        obtain ⟨H1, H2⟩ := H
        obtain ⟨i1, r', i2, i3⟩ := ih (total + r.bytes.length) (buf ++ r.bytes) (by omega) H2
          n hret hn
        exact ⟨i1, r', by simp [hr, i2], i3⟩
    · rw [recv_all_loop_done len (r :: script) total buf h] at hret
      simp only [Option.some.injEq] at hret
      omega

/-- The log of reads when no read returns more than it was asked for: requests and running
total, the return of `len`, the buffer, and the return of anything else. -/
theorem recv_all_bounded_reads (len : Nat) (script : List RecvResult)
    (hreads : ∀ p ∈ (recv_all len script).reads, p.2 ≤ (p.1 : Int)) :
    (∀ pre p post, (recv_all len script).reads = pre ++ p :: post →
        (p.1 : Int) = (len : Int) - (pre.map Prod.snd).sum ∧
        0 ≤ (pre.map Prod.snd).sum ∧ (pre.map Prod.snd).sum + p.2 ≤ (len : Int)) ∧
    ((recv_all len script).ret = some (len : Int) ↔
        ((recv_all len script).ret ≠ none ∧ ∀ p ∈ (recv_all len script).reads, 0 < p.2)) ∧
    ((recv_all len script).ret = some (len : Int) →
        (recv_all len script).buf = ((script.map RecvResult.bytes).flatten).take len ∧
        (recv_all len script).buf.length = len) ∧
    (∀ n, (recv_all len script).ret = some n → n ≠ (len : Int) →
        n ≤ 0 ∧ ∃ r, script.find? (fun r => decide (r.ret ≤ 0)) = some r ∧ r.ret = n) := by
  unfold recv_all at hreads ⊢
  refine ⟨?_, recv_all_loop_returns_len len script 0 [] (Nat.zero_le _) hreads, ?_,
    recv_all_loop_failure len script 0 [] (Nat.zero_le _) hreads⟩
  · intro pre p post e
    have := recv_all_loop_requests len script 0 [] (Nat.zero_le _) hreads pre p post e
    simpa using this
  · intro hret
    have := recv_all_loop_buffer len script 0 [] (Nat.zero_le _) hreads hret
    simpa using this

end RpcServer

set_option maxRecDepth 100000 in
theorem capped_reads_bounded_counter_witness :
    ((∀ it ∈ (RpcServer.recv_loop 55 Scenario.writeAll Scenario.reads55 0 0).iters,
        (it.req : Int) = min (55 - it.counter) 4096 ∧
        0 ≤ it.counter ∧ it.counter ≤ 55 ∧ (0 < it.ret → it.counter + it.ret ≤ 55)) ∧
      0 ≤ (RpcServer.recv_loop 55 Scenario.writeAll Scenario.reads55 0 0).received_size ∧
      ((0 : Int) ≤ 55 →
        (RpcServer.recv_loop 55 Scenario.writeAll Scenario.reads55 0 0).received_size ≤ 55)) ∧
    ((∀ it ∈ (TextClient.recv_loop 55 Scenario.fwriteAll Scenario.reads40closed 0 0).iters,
        (it.req : Int) = min (55 - it.counter) 4096 ∧
        0 ≤ it.counter ∧ it.counter ≤ 55 ∧ (0 < it.ret → it.counter + it.ret ≤ 55)) ∧
      0 ≤ (TextClient.recv_loop 55 Scenario.fwriteAll Scenario.reads40closed 0 0).bytes_received ∧
      ((0 : Int) ≤ 55 →
        (TextClient.recv_loop 55 Scenario.fwriteAll Scenario.reads40closed 0 0).bytes_received
          ≤ 55)) :=
  capped_reads_bounded_counter 55 Scenario.writeAll Scenario.fwriteAll Scenario.reads55
    Scenario.reads40closed (by decide) (by decide)

set_option maxRecDepth 100000 in
theorem handle_client_early_close_witness :
    (RpcServer.handle_client Scenario.wEarlyClose).exit = .finished ∧
    (RpcServer.handle_client Scenario.wEarlyClose).received_size = 40 ∧
    RpcServer.sentCodes (RpcServer.handle_client Scenario.wEarlyClose).acts = [200, 500] ∧
    RpcServer.Act.unlinkOut ∈ (RpcServer.handle_client Scenario.wEarlyClose).acts ∧
    (RpcServer.handle_client Scenario.wEarlyClose).file = none :=
  RpcServer.handle_client_early_close Scenario.wEarlyClose RpcServer.hdr55 [RpcServer.hdr55]
    [List.replicate 40 7] .closed [] 55 (by rfl) (by decide) (by decide) (by decide) (by decide)
    (by decide) (by decide) (by decide) (by rfl) (by rfl) (fun _ _ => Int.ofNat_zero_le _)

set_option maxRecDepth 100000 in
theorem handle_client_rejects_witness :
    (RpcServer.handle_client Scenario.wDownload).exit = .invalidMethod ∧
    (RpcServer.handle_client Scenario.wDownload).acts =
      RpcServer.readActs
        (RpcServer.recv_all RpcServer.sizeofMetadata Scenario.wDownload.recvs).reads
        ++ [.closeConn] ∧
    RpcServer.sentCodes (RpcServer.handle_client Scenario.wDownload).acts = [] ∧
    (∀ ok, RpcServer.Act.openOut ok ∉ (RpcServer.handle_client Scenario.wDownload).acts) ∧
    (RpcServer.handle_client Scenario.wDownload).iters = [] ∧
    (RpcServer.handle_client Scenario.wDownload).file = Scenario.wDownload.file0 :=
  RpcServer.handle_client_rejects Scenario.wDownload 296 (by decide) (by decide) (by decide)

namespace RpcClient

theorem send_chunk_done (buffer : List Byte) (script : List Int) (sent bs : Nat)
    (h : ¬ sent < buffer.length) :
    send_chunk buffer script sent bs
      = { exit := .finished, bytes_sent := bs, wire := [], sends := [], rest := script } := by
  unfold send_chunk
  simp [h]

theorem send_chunk_nil (buffer : List Byte) (sent bs : Nat) (h : sent < buffer.length) :
    send_chunk buffer [] sent bs
      = { exit := .blocked, bytes_sent := bs, wire := [], sends := [], rest := [] } := by
  unfold send_chunk
  simp [h]

theorem send_chunk_neg (buffer : List Byte) (n : Int) (script : List Int) (sent bs : Nat)
    (h : sent < buffer.length) (hn : n < 0) :
    send_chunk buffer (n :: script) sent bs
      = { exit := .sendError, bytes_sent := bs, wire := [],
          sends := [{ sent := sent, bytes_sent := bs, offered := buffer.drop sent, ret := n }],
          rest := script } := by
  unfold send_chunk
  simp [h, hn]

theorem send_chunk_ok (buffer : List Byte) (n : Int) (script : List Int) (sent bs : Nat)
    (h : sent < buffer.length) (hn : ¬ n < 0) :
    send_chunk buffer (n :: script) sent bs
      = { send_chunk buffer script (sent + n.toNat) (bs + n.toNat) with
          wire := (buffer.drop sent).take n.toNat
            ++ (send_chunk buffer script (sent + n.toNat) (bs + n.toNat)).wire
          sends := { sent := sent, bytes_sent := bs, offered := buffer.drop sent, ret := n }
            :: (send_chunk buffer script (sent + n.toNat) (bs + n.toNat)).sends } := by
  conv_lhs => unfold send_chunk
  simp only [h, if_true]
  rw [if_neg hn]

/-- What the inner loop does whatever the transport answers: the wire carries the accepted
parts of the offers, and a negative answer is the last one. -/
theorem send_chunk_always (buffer : List Byte) (script : List Int) :
    ∀ (sent bs : Nat),
      (send_chunk buffer script sent bs).wire
        = ((send_chunk buffer script sent bs).sends.map SendEvent.accepted).flatten ∧
      (∀ pre e post, (send_chunk buffer script sent bs).sends = pre ++ e :: post → e.ret < 0 →
        post = [] ∧ (send_chunk buffer script sent bs).exit = .sendError) ∧
      (send_chunk buffer script sent bs).exit ≠ .outOfFuel := by
  induction script with
  | nil =>
    intro sent bs
    by_cases h : sent < buffer.length
    · rw [send_chunk_nil buffer sent bs h]; simp
    · rw [send_chunk_done buffer [] sent bs h]; simp
  | cons n script ih =>
    intro sent bs
    by_cases h : sent < buffer.length
    · by_cases hn : n < 0
      · rw [send_chunk_neg buffer n script sent bs h hn]
        refine ⟨by simp [SendEvent.accepted, Int.toNat_eq_zero.mpr (le_of_lt hn)], ?_, by simp⟩
        intro pre e post e1 _
        cases pre with
        | nil =>
          simp only [List.nil_append, List.cons.injEq] at e1
          exact ⟨e1.2.symm, rfl⟩
        | cons q pre => simp at e1
      · rw [send_chunk_ok buffer n script sent bs h hn]
        obtain ⟨i1, i2, i3⟩ := ih (sent + n.toNat) (bs + n.toNat)
        refine ⟨by simp [SendEvent.accepted, ← i1], ?_, i3⟩
        intro pre e post e1 he
        cases pre with
        | nil =>
          simp only [List.nil_append, List.cons.injEq] at e1
          obtain ⟨e2, _⟩ := e1
          subst e2
          exact absurd he hn
        | cons q pre =>
          simp only [List.cons_append, List.cons.injEq] at e1
          exact i2 pre e post e1.2 he
    · rw [send_chunk_done buffer (n :: script) sent bs h]; simp

theorem stream_loop_eof (fuel : Nat) (script : List Int) (bs : Nat) :
    stream_loop (fuel + 1) [] script bs
      = { exit := .finished, bytes_sent := bs, wire := [], sends := [], rest := script } := by
  unfold stream_loop
  simp

theorem stream_loop_chunk (fuel : Nat) (file : List Byte) (script : List Int) (bs : Nat)
    (hfile : file ≠ [])
    (hc : (send_chunk (file.take CHUNK_SIZE) script 0 bs).exit = .finished) :
    stream_loop (fuel + 1) file script bs
      = { stream_loop fuel (file.drop CHUNK_SIZE)
            (send_chunk (file.take CHUNK_SIZE) script 0 bs).rest
            (send_chunk (file.take CHUNK_SIZE) script 0 bs).bytes_sent with
          wire := (send_chunk (file.take CHUNK_SIZE) script 0 bs).wire
            ++ (stream_loop fuel (file.drop CHUNK_SIZE)
                (send_chunk (file.take CHUNK_SIZE) script 0 bs).rest
                (send_chunk (file.take CHUNK_SIZE) script 0 bs).bytes_sent).wire
          sends := (send_chunk (file.take CHUNK_SIZE) script 0 bs).sends
            ++ (stream_loop fuel (file.drop CHUNK_SIZE)
                (send_chunk (file.take CHUNK_SIZE) script 0 bs).rest
                (send_chunk (file.take CHUNK_SIZE) script 0 bs).bytes_sent).sends } := by
  have hpos : (file.take CHUNK_SIZE).length > 0 := by
    cases file with
    | nil => exact absurd rfl hfile
    | cons b bs => simp [CHUNK_SIZE]
  conv_lhs => unfold stream_loop
  simp only [hpos, if_true, hc]

theorem stream_loop_stop (fuel : Nat) (file : List Byte) (script : List Int) (bs : Nat)
    (hfile : file ≠ [])
    (hc : (send_chunk (file.take CHUNK_SIZE) script 0 bs).exit ≠ .finished) :
    stream_loop (fuel + 1) file script bs = send_chunk (file.take CHUNK_SIZE) script 0 bs := by
  have hpos : (file.take CHUNK_SIZE).length > 0 := by
    cases file with
    | nil => exact absurd rfl hfile
    | cons b bs => simp [CHUNK_SIZE]
  conv_lhs => unfold stream_loop
  simp only [hpos, if_true]

/-- What the streaming loop does whatever the transport answers. -/
theorem stream_loop_always (fuel : Nat) :
    ∀ (file : List Byte) (script : List Int) (bs : Nat),
      (stream_loop fuel file script bs).wire
        = ((stream_loop fuel file script bs).sends.map SendEvent.accepted).flatten ∧
      (∀ pre e post, (stream_loop fuel file script bs).sends = pre ++ e :: post → e.ret < 0 →
        post = [] ∧ (stream_loop fuel file script bs).exit = .sendError) := by
  induction fuel with
  | zero =>
    intro file script bs
    unfold stream_loop
    simp
  | succ fuel ih =>
    intro file script bs
    by_cases hfile : file = []
    · subst hfile
      rw [stream_loop_eof]
      simp
    · obtain ⟨c1, c2, _⟩ := send_chunk_always (file.take CHUNK_SIZE) script 0 bs
      by_cases hc : (send_chunk (file.take CHUNK_SIZE) script 0 bs).exit = .finished
      · rw [stream_loop_chunk fuel file script bs hfile hc]
        obtain ⟨i1, i2⟩ := ih (file.drop CHUNK_SIZE)
          (send_chunk (file.take CHUNK_SIZE) script 0 bs).rest
          (send_chunk (file.take CHUNK_SIZE) script 0 bs).bytes_sent
        refine ⟨by simp only [List.map_append, List.flatten_append, ← c1, ← i1], ?_⟩
        intro pre e post e1 he
        simp only at e1
        rcases List.append_eq_append_iff.mp e1 with ⟨a, _, ha⟩ | ⟨c, hA, hB⟩
        · exact i2 a e post ha he
        · cases c with
          | nil =>
            simp only [List.nil_append] at hB
            exact i2 [] e post hB.symm he
          | cons q c =>
            simp only [List.cons_append, List.cons.injEq] at hB
            obtain ⟨hq, _⟩ := hB
            subst hq
            have := (c2 pre e (c) hA he).2
            rw [hc] at this
            exact absurd this (by simp)
      · rw [stream_loop_stop fuel file script bs hfile hc]
        exact ⟨c1, c2⟩

theorem chunk_remainder (content : List Byte) (q s : Nat) (hs : s < CHUNK_SIZE) :
    (((content.drop (CHUNK_SIZE * q)).take CHUNK_SIZE).drop s)
      = (content.take (CHUNK_SIZE * ((CHUNK_SIZE * q + s) / CHUNK_SIZE + 1))).drop
          (CHUNK_SIZE * q + s) := by
  have hq : (CHUNK_SIZE * q + s) / CHUNK_SIZE = q := by
    unfold CHUNK_SIZE at hs ⊢
    omega
  rw [hq, List.drop_take, List.drop_take, List.drop_drop]
  congr 1
  unfold CHUNK_SIZE at hs ⊢
  omega

/-- The counter `bytes_sent` counts the bytes the transport accepted. -/
theorem send_chunk_counts (buffer : List Byte) (script : List Int) :
    ∀ (sent bs : Nat),
      (∀ e ∈ (send_chunk buffer script sent bs).sends,
        1 ≤ e.ret ∧ e.ret ≤ (e.offered.length : Int)) →
      (send_chunk buffer script sent bs).bytes_sent
        = bs + ((send_chunk buffer script sent bs).sends.map SendEvent.accepted).flatten.length ∧
      (∀ pre e post, (send_chunk buffer script sent bs).sends = pre ++ e :: post →
        e.bytes_sent = bs + (pre.map SendEvent.accepted).flatten.length) := by
  induction script with
  | nil =>
    intro sent bs _
    by_cases h : sent < buffer.length
    · rw [send_chunk_nil buffer sent bs h]; simp
    · rw [send_chunk_done buffer [] sent bs h]; simp
  | cons n script ih =>
    intro sent bs H
    by_cases h : sent < buffer.length
    · by_cases hn : n < 0
      · rw [send_chunk_neg buffer n script sent bs h hn] at H
        have := (H _ (List.mem_singleton.mpr rfl)).1
        simp only at this
        omega
      · rw [send_chunk_ok buffer n script sent bs h hn] at H ⊢
        simp only [List.mem_cons, forall_eq_or_imp] at H
        obtain ⟨⟨H1, H2⟩, H3⟩ := H
        have hacc : ((buffer.drop sent).take n.toNat).length = n.toNat := by
          rw [List.length_take]
          omega
        obtain ⟨i1, i2⟩ := ih (sent + n.toNat) (bs + n.toNat) H3
        constructor
        · simp only [List.map_cons, List.flatten_cons, List.length_append, SendEvent.accepted,
            hacc, i1]
          omega
        · intro pre e post e1
          cases pre with
          | nil =>
            simp only [List.nil_append, List.cons.injEq] at e1
            obtain ⟨e2, _⟩ := e1
            subst e2
            simp
          | cons q pre =>
            simp only [List.cons_append, List.cons.injEq] at e1
            obtain ⟨e2, e3⟩ := e1
            subst e2
            rw [i2 pre e post e3]
            simp only [List.map_cons, List.flatten_cons, List.length_append, SendEvent.accepted,
              hacc]
            omega
    · rw [send_chunk_done buffer (n :: script) sent bs h]; simp

theorem stream_loop_counts (fuel : Nat) :
    ∀ (file : List Byte) (script : List Int) (bs : Nat),
      (∀ e ∈ (stream_loop fuel file script bs).sends,
        1 ≤ e.ret ∧ e.ret ≤ (e.offered.length : Int)) →
      (stream_loop fuel file script bs).bytes_sent
        = bs + ((stream_loop fuel file script bs).sends.map SendEvent.accepted).flatten.length ∧
      (∀ pre e post, (stream_loop fuel file script bs).sends = pre ++ e :: post →
        e.bytes_sent = bs + (pre.map SendEvent.accepted).flatten.length) := by
  induction fuel with
  | zero =>
    intro file script bs _
    unfold stream_loop
    simp
  | succ fuel ih =>
    intro file script bs H
    by_cases hfile : file = []
    · subst hfile
      rw [stream_loop_eof]
      simp
    · by_cases hc : (send_chunk (file.take CHUNK_SIZE) script 0 bs).exit = .finished
      · rw [stream_loop_chunk fuel file script bs hfile hc] at H ⊢
        simp only [List.mem_append] at H
        obtain ⟨c1, c2⟩ := send_chunk_counts (file.take CHUNK_SIZE) script 0 bs
          (fun e he => H e (Or.inl he))
        obtain ⟨i1, i2⟩ := ih (file.drop CHUNK_SIZE)
          (send_chunk (file.take CHUNK_SIZE) script 0 bs).rest
          (send_chunk (file.take CHUNK_SIZE) script 0 bs).bytes_sent (fun e he => H e (Or.inr he))
        constructor
        · simp only [List.map_append, List.flatten_append, List.length_append]
          rw [i1, c1]
          omega
        · intro pre e post e1
          simp only at e1
          rcases List.append_eq_append_iff.mp e1 with ⟨a, hpre, ha⟩ | ⟨c, hA, hB⟩
          · rw [i2 a e post ha, hpre, c1]
            simp only [List.map_append, List.flatten_append, List.length_append]
            omega
          · cases c with
            | nil =>
              simp only [List.nil_append] at hB
              simp only [List.append_nil] at hA
              rw [i2 [] e post hB.symm, c1, hA]
              simp
            | cons q c =>
              simp only [List.cons_append, List.cons.injEq] at hB
              obtain ⟨hq, _⟩ := hB
              subst hq
              exact c2 pre e c hA
      · rw [stream_loop_stop fuel file script bs hfile hc] at H ⊢
        exact send_chunk_counts (file.take CHUNK_SIZE) script 0 bs H

end RpcClient

namespace TextServer

theorem decDigits_eq_digits (fuel : Nat) :
    ∀ n, n < fuel → decDigits fuel n
      = if n = 0 then [48] else (Nat.digits 10 n).reverse.map (fun d => 48 + d) := by
  induction fuel with
  | zero => intro n h; omega
  | succ fuel ih =>
    intro n h
    unfold decDigits
    by_cases h10 : n < 10
    · rw [if_pos h10]
      by_cases h0 : n = 0
      · simp [h0]
      · rw [if_neg h0, Nat.digits_of_lt 10 n h0 h10]
        simp
    · rw [if_neg h10, ih (n / 10) (by omega)]
      have h0 : n ≠ 0 := by omega
      have hd : n / 10 ≠ 0 := by omega
      have e : Nat.digits 10 n = (n % 10) :: Nat.digits 10 (n / 10) :=
        Nat.digits_def' (by norm_num) (by omega)
      rw [if_neg h0, if_neg hd, e]
      simp only [List.reverse_cons, List.map_append, List.map_cons, List.map_nil]

theorem decDigits_length (fuel : Nat) :
    ∀ n k, n < 10 ^ k → 1 ≤ k → (decDigits fuel n).length ≤ k := by
  induction fuel with
  | zero => intro n k _ _; simp [decDigits]
  | succ fuel ih =>
    intro n k h hk
    unfold decDigits
    by_cases h10 : n < 10
    · rw [if_pos h10]
      simpa using hk
    · rw [if_neg h10]
      obtain ⟨k, rfl⟩ : ∃ j, k = j + 1 := ⟨k - 1, by omega⟩
      have hk1 : 1 ≤ k := by
        rcases Nat.eq_zero_or_pos k with h0 | h0
        · subst h0
          simp at h
          omega
        · exact h0
      have hdiv : n / 10 < 10 ^ k := by
        rw [pow_succ] at h
        omega
      have := ih (n / 10) k hdiv hk1
      simp only [List.length_append, List.length_singleton]
      omega

end TextServer

namespace TextClient

theorem digitsValue_append (xs : List Byte) (d : Byte) :
    digitsValue (xs ++ [d]) = digitsValue xs * 10 + (d - 48) := by
  simp [digitsValue, List.foldl_append]

theorem isdigit_iff (b : Nat) : isdigit b = true ↔ 48 ≤ b ∧ b ≤ 57 := by
  simp [isdigit]

theorem decDigits_scan (fuel : Nat) :
    ∀ n, n < fuel →
      (∀ b ∈ TextServer.decDigits fuel n, isdigit b = true) ∧
      TextServer.decDigits fuel n ≠ [] ∧
      digitsValue (TextServer.decDigits fuel n) = n := by
  induction fuel with
  | zero => intro n h; omega
  | succ fuel ih =>
    intro n h
    unfold TextServer.decDigits
    by_cases h10 : n < 10
    · rw [if_pos h10]
      refine ⟨?_, by simp, by simp [digitsValue]⟩
      intro b hb
      simp only [List.mem_singleton] at hb
      subst hb
      rw [isdigit_iff]
      omega
    · rw [if_neg h10]
      obtain ⟨i1, i2, i3⟩ := ih (n / 10) (by omega)
      refine ⟨?_, by simp, ?_⟩
      · intro b hb
        simp only [List.mem_append, List.mem_singleton] at hb
        rcases hb with hb | hb
        · exact i1 b hb
        · subst hb
          rw [isdigit_iff]
          omega
      · rw [digitsValue_append, i3]
        omega

end TextClient

namespace TextClient

theorem cstr_set_nul (bytes : List Nat) (h : ∀ b ∈ bytes, b ≠ 0) :
    ∀ rest : List Nat, cstr ((bytes ++ rest).set bytes.length 0) = bytes := by
  induction bytes with
  | nil =>
    intro rest
    cases rest with
    | nil => rfl
    | cons r rs => simp [cstr]
  | cons b bs ih =>
    intro rest
    have hb : (b != 0) = true := by simpa using h b (by simp)
    have := ih (fun x hx => h x (by simp [hx])) rest
    unfold cstr at this ⊢
    rw [List.cons_append, List.length_cons, List.set_cons_succ, List.takeWhile_cons, hb, this]
    rfl

theorem cstr_header_buffer (bytes : List Nat) (h : ∀ b ∈ bytes, b ≠ 0) :
    cstr (header_buffer bytes) = bytes :=
  cstr_set_nul bytes h _

theorem scan_lld_digits (ds : List Nat) (hd : ∀ b ∈ ds, isdigit b = true) (hne : ds ≠ []) :
    scan_lld ds = some (clampLL (digitsValue ds : Int)) := by
  cases ds with
  | nil => exact absurd rfl hne
  | cons d ds =>
    have hdig : 48 ≤ d ∧ d ≤ 57 := (isdigit_iff d).mp (hd d (by simp))
    have hsp : isspace d = false := by
      have h1 : ¬ (d = 32) := by omega
      have h2 : ¬ (d ≤ 13) := by omega
      simp [isspace, h1, h2]
    have h45 : ¬ (d = 45) := by omega
    have h43 : ¬ (d = 43) := by omega
    have htw : (d :: ds).takeWhile isdigit = d :: ds := by
      rw [List.takeWhile_eq_self_iff]
      exact hd
    unfold scan_lld
    simp [List.dropWhile_cons, hsp, h45, h43, htw]

end TextClient

theorem TextServer.ok_header_nat (n : Nat) (hn : n < 2 ^ 63) :
    TextServer.ok_header (n : Int) = [79, 75, 58] ++ TextServer.decDigits (n + 1) n := by
  have hlen := TextServer.decDigits_length (n + 1) n 19 (by omega) (by norm_num)
  unfold TextServer.ok_header TextServer.fmt_lld
  have h0 : ¬ ((n : Int) < 0) := by omega
  rw [if_neg h0, Int.natAbs_ofNat]
  apply List.take_of_length_le
  simp only [List.length_append, List.length_cons, List.length_nil]
  omega

theorem TextClient.decodeHeader_ok (n : Nat) (hn : n < 2 ^ 63) :
    TextClient.decodeHeader ([79, 75, 58] ++ TextServer.decDigits (n + 1) n)
      = .accepted (n : Int) := by
  obtain ⟨d1, d2, d3⟩ := TextClient.decDigits_scan (n + 1) n (Nat.lt_succ_self n)
  have hnz : ∀ b ∈ ([79, 75, 58] ++ TextServer.decDigits (n + 1) n : List Nat), b ≠ 0 := by
    intro b hb
    simp only [List.mem_append, List.mem_cons, List.mem_singleton, List.not_mem_nil,
      or_false] at hb
    rcases hb with (rfl | rfl | rfl) | hb
    · decide
    · decide
    · decide
    · have := (TextClient.isdigit_iff b).mp (d1 b hb)
      omega
  have hc := TextClient.cstr_header_buffer _ hnz
  have hscan := TextClient.scan_lld_digits _ d1 d2
  have hclamp : TextClient.clampLL (n : Int) = (n : Int) := by
    unfold TextClient.clampLL
    rw [if_neg (by omega), if_neg (by omega)]
  have e1 : strncmp_eq (TextClient.header_buffer
      ([79, 75, 58] ++ TextServer.decDigits (n + 1) n)) TextClient.ERROR_ 6 = false := by
    unfold strncmp_eq
    rw [hc]
    simp [TextClient.ERROR_, cstr]
  have e2 : strncmp_eq (TextClient.header_buffer
      ([79, 75, 58] ++ TextServer.decDigits (n + 1) n)) TextClient.OK_ 3 = true := by
    unfold strncmp_eq
    rw [hc]
    simp [TextClient.OK_, cstr]
  have e3 : TextClient.sscanf_OK_lld (TextClient.header_buffer
      ([79, 75, 58] ++ TextServer.decDigits (n + 1) n)) = some (n : Int) := by
    unfold TextClient.sscanf_OK_lld
    rw [hc]
    simp only [List.cons_append, List.nil_append]
    rw [hscan, d3, hclamp]
  unfold TextClient.decodeHeader
  simp only [e1, e2, e3, Bool.false_eq_true, if_false, Bool.not_true]

/-- C7 (text header round trip). For every size `n` with `0 <= n < 2 ^ 63` the header the text
server builds is `OK:` followed by the decimal digits of `n`, without truncation (it takes
fewer than 64 bytes); it is what `handle_client` hands to `send` as a whole once the
request, `stat` and `fopen` succeeded; and when the client's header read returns exactly
these bytes, its decoding accepts the header with `file_size = n`. -/
theorem text_header_round_trip (n : Nat) (hn : n < 2 ^ 63) :
    TextServer.ok_header (n : Int)
      = [79, 75, 58] ++ (if n = 0 then [48] else (Nat.digits 10 n).reverse.map (fun d => 48 + d)) ∧
    (TextServer.ok_header (n : Int)).length < 64 ∧
    TextClient.decodeHeader (TextServer.ok_header (n : Int)) = .accepted (n : Int) ∧
    (∀ (w : TextServer.World) (r : RecvResult) (s : Int) (rest : List Int),
      w.request = some r → 0 < r.ret →
      strcmp_eq (TextServer.filename_buffer w.prior r.bytes) TextServer.TRANSFER_FILE = true →
      w.stat = some (n : Int) → w.fopenOk = true → w.sends = s :: rest →
      (TextServer.handle_client w).header = TextServer.ok_header (n : Int) ∧
      TextServer.Act.send (TextServer.ok_header (n : Int)) s ∈ (TextServer.handle_client w).acts) ∧
    (∀ (w : TextClient.World) (payload : List RecvResult),
      0 ≤ w.sendRet → w.recvs = .data (TextServer.ok_header (n : Int)) :: payload →
      (TextClient.main w).file_size = (n : Int) ∧
      ∀ h, (TextClient.main w).exit ≠ .rejected h) := by
  have hok := TextServer.ok_header_nat n hn
  have hdec := TextClient.decodeHeader_ok n hn
  have hlen := TextServer.decDigits_length (n + 1) n 19 (by omega) (by norm_num)
  refine ⟨?_, ?_, ?_, ?_, ?_⟩
  · rw [hok, TextServer.decDigits_eq_digits (n + 1) n (Nat.lt_succ_self n)]
  · rw [hok]
    simp only [List.length_append, List.length_cons, List.length_nil]
    omega
  · rw [hok, hdec]
  · intro w r s rest hreq hr hcmp hstat hopen hsends
    have hr' : ¬ (r.ret ≤ 0) := not_le.mpr hr
    unfold TextServer.handle_client
    simp only [hreq, hr', if_false, hcmp, Bool.not_true, Bool.false_eq_true, hstat, hopen, hsends]
    split
    · exact ⟨rfl, by simp⟩
    · split <;> exact ⟨rfl, by simp⟩
  · intro w payload hsend hrecvs
    have hs : ¬ (w.sendRet < 0) := not_lt.mpr hsend
    have hpos : ¬ ((RecvResult.data (TextServer.ok_header (n : Int))).ret ≤ 0) := by
      rw [hok]
      simp [RecvResult.ret]
      omega
    unfold TextClient.main
    simp only [hs, if_false, hrecvs, hpos, RecvResult.bytes]
    rw [hok, hdec]
    simp only
    split
    · exact ⟨rfl, by simp⟩
    · split <;> exact ⟨rfl, by simp⟩

theorem text_header_round_trip_witness :
    TextServer.ok_header 55 = [79, 75, 58, 53, 53] ∧
    TextClient.decodeHeader (TextServer.ok_header 55) = .accepted 55 :=
  ⟨by decide, (text_header_round_trip 55 (by norm_num)).2.2.1⟩

set_option maxRecDepth 100000 in
/-- C8 (counter against bytes stored, binary server), evaluated on a short write. The header
announces 5 bytes, one read delivers them, `write` stores 3 of them and returns 3: the run
ends with `received_size = 5` and status 201 while the output file holds 3 bytes. -/
theorem RpcServer.short_write_counter_mismatch :
    (RpcServer.handle_client Scenario.wShortWrite).exit = .finished ∧
    (RpcServer.handle_client Scenario.wShortWrite).received_size = 5 ∧
    (RpcServer.handle_client Scenario.wShortWrite).file = some [1, 2, 3] ∧
    RpcServer.sentCodes (RpcServer.handle_client Scenario.wShortWrite).acts = [200, 201] := by
  decide

set_option maxRecDepth 100000 in
/-- C10 (whole chunk sent, text server), evaluated on a partial send. The served file has 5
bytes and the header `OK:5` is sent; the payload `send` accepts 3 of the 5 bytes offered:
no further `send` follows, the next `fread` returns 0 and the loop ends without any
transport error after 3 payload bytes. -/
theorem TextServer.partial_send_drops_remainder :
    (TextServer.handle_client Scenario.wPartialSend).exit = .finished ∧
    (TextServer.handle_client Scenario.wPartialSend).header = [79, 75, 58, 53] ∧
    (TextServer.handle_client Scenario.wPartialSend).wire = [1, 2, 3] ∧
    (TextServer.handle_client Scenario.wPartialSend).total_bytes_sent = 3 ∧
    (TextServer.handle_client Scenario.wPartialSend).acts =
      [.recv 1023 15, .stat true, .fopen true, .send [79, 75, 58, 53] 4, .fread 5,
       .send [1, 2, 3, 4, 5] 3, .fread 0, .fclose, .close] := by
  decide

set_option maxRecDepth 100000 in
/-- C9, counterexample. The header `OK:10` is accepted, 4 bytes arrive and the next read
returns 0: the client ends with `bytes_received = 4 < 10` and the output file is still
there. -/
theorem TextClient.partial_file_left_behind :
    (TextClient.main Scenario.wPremature).file_size = 10 ∧
    (TextClient.main Scenario.wPremature).bytes_received = 4 ∧
    (TextClient.main Scenario.wPremature).exit = .finished ∧
    ¬ ((TextClient.main Scenario.wPremature).file = none) := by
  decide

theorem TextClient.recv_loop_premature (file_size : Int) (fw : Nat → List Byte → Nat)
    (z : RecvResult) (rest : List RecvResult) (hz : z.ret ≤ 0) (cs : List (List Byte)) :
    ∀ (received : Int) (nw : Nat),
      (∀ c ∈ cs, 1 ≤ c.length ∧ c.length ≤ TextClient.BUFFER_SIZE) →
      received + (cs.flatten.length : Int) < file_size →
      (TextClient.recv_loop file_size fw (cs.map .data ++ z :: rest) received nw).exit
        = .finished ∧
      (TextClient.recv_loop file_size fw (cs.map .data ++ z :: rest) received nw).bytes_received
        = received + (cs.flatten.length : Int) ∧
      ((∀ i bs, fw i bs = bs.length) →
        (TextClient.recv_loop file_size fw (cs.map .data ++ z :: rest) received nw).written
          = cs.flatten) := by
  induction cs with
  | nil =>
    intro received nw _ h
    have hlt : received < file_size := by simpa using h
    unfold TextClient.recv_loop
    simp [hlt, hz]
  | cons c cs ih =>
    intro received nw hpos h
    obtain ⟨hc1, _⟩ := hpos c (by simp)
    simp only [List.flatten_cons, List.length_append, Nat.cast_add] at h
    have hlt : received < file_size := by omega
    obtain ⟨i1, i2, i3⟩ := ih (received + (c.length : Int)) (nw + 1)
      (fun d hd => hpos d (by simp [hd])) (by omega)
    unfold TextClient.recv_loop
    have e1 : ¬ ((c.length : Int) ≤ 0) := by omega
    simp only [List.map_cons, List.cons_append, hlt, if_true, RecvResult.ret, RecvResult.bytes,
      e1, if_false, List.flatten_cons, List.length_append, Nat.cast_add]
    refine ⟨i1, by rw [i2]; ring, ?_⟩
    intro hfw
    rw [i3 hfw, hfw, List.take_length]

/-- C9, as amended (premature end on the text client). After an accepted header announcing
`d` bytes, when `k < d` payload bytes have arrived in reads of 1 to `BUFFER_SIZE` bytes
and the next read returns zero or a negative value, the client leaves the loop with
`bytes_received = k`, calls `fclose` and `close` and returns; the output file is not
removed: it exists at exit, and holds exactly the `k` bytes received when every `fwrite`
stored its chunk in full. -/
theorem TextClient.main_premature_close (w : TextClient.World) (hdr : List Byte)
    (chunks : List (List Byte)) (z : RecvResult) (rest : List RecvResult) (d : Int)
    (hsend : 0 ≤ w.sendRet)
    (hrecvs : w.recvs = .data hdr :: (chunks.map .data ++ z :: rest))
    (hhdr : 1 ≤ hdr.length)
    (hdec : TextClient.decodeHeader hdr = .accepted d)
    (hopen : w.fopenOk = true)
    (hk : (chunks.flatten.length : Int) < d)
    (hreads : ∀ c ∈ chunks, 1 ≤ c.length ∧ c.length ≤ TextClient.BUFFER_SIZE)
    (hz : z.ret ≤ 0) :
    (TextClient.main w).exit = .finished ∧
    (TextClient.main w).file_size = d ∧
    (TextClient.main w).bytes_received = (chunks.flatten.length : Int) ∧
    (∃ pre, (TextClient.main w).acts = pre ++ [.fclose, .close]) ∧
    (∃ stored, (TextClient.main w).file = some stored) ∧
    ((∀ i bs, w.fwrites i bs = bs.length) → (TextClient.main w).file = some chunks.flatten) := by
  obtain ⟨l1, l2, l3⟩ := TextClient.recv_loop_premature d w.fwrites z rest hz chunks 0 0 hreads
    (by simpa using hk)
  rw [zero_add] at l2
  have hs : ¬ (w.sendRet < 0) := not_lt.mpr hsend
  have hpos : ¬ ((RecvResult.data hdr).ret ≤ 0) := by
    simp only [RecvResult.ret]
    omega
  unfold TextClient.main
  simp only [hs, if_false, hrecvs, hpos, RecvResult.bytes, hdec, hopen, Bool.not_true,
    Bool.false_eq_true, l1, l2]
  refine ⟨trivial, trivial, trivial, ⟨_, rfl⟩, ⟨_, rfl⟩, ?_⟩
  intro hfw
  rw [l3 hfw]

set_option maxRecDepth 100000 in
theorem main_premature_close_witness :
    (TextClient.main Scenario.wPremature).exit = .finished ∧
    (TextClient.main Scenario.wPremature).file_size = 10 ∧
    (TextClient.main Scenario.wPremature).bytes_received = 4 ∧
    (TextClient.main Scenario.wPremature).file = some [1, 2, 3, 4] :=
  have h := TextClient.main_premature_close Scenario.wPremature [79, 75, 58, 49, 48]
    [[1, 2, 3, 4]] .closed [] 10 (by decide) (by rfl) (by decide) (by decide) (by rfl)
    (by decide) (by decide) (by decide)
  ⟨h.1, h.2.1, h.2.2.1, h.2.2.2.2.2 (fun _ _ => rfl)⟩

set_option maxRecDepth 100000 in
/-- C11 (rejection is signalled to the peer), evaluated on a request with the method
`DeleteFile` that is received whole: `handle_client` reads the header and closes the
connection; no status code is sent before the close, nothing is opened. -/
theorem RpcServer.rejection_sends_nothing :
    (RpcServer.handle_client Scenario.wDelete).exit = .invalidMethod ∧
    (RpcServer.handle_client Scenario.wDelete).acts = [.recv 296 296, .closeConn] ∧
    RpcServer.sentCodes (RpcServer.handle_client Scenario.wDelete).acts = [] := by
  decide

set_option maxRecDepth 100000 in
/-- C14 (the text request is the bytes the read returned), evaluated on three requests.
When the read returns exactly the 15 bytes of `source_file.txt` into a buffer that held the
byte 7 everywhere, the server answers `ERROR:File Not Found` and sends no payload. When
the read returns `source_file.txt`, a NUL and `x` (17 bytes), or only `source_` into a
buffer that already held `source_file.txt`, the server serves the file with `OK:5`. -/
theorem TextServer.request_depends_on_buffer :
    ((TextServer.handle_client Scenario.wGarbage).exit = .notFound ∧
      (TextServer.handle_client Scenario.wGarbage).header = TextServer.ERROR_NOT_FOUND ∧
      (TextServer.handle_client Scenario.wGarbage).wire = []) ∧
    ((TextServer.handle_client Scenario.wTrailing).exit = .finished ∧
      (TextServer.handle_client Scenario.wTrailing).header = [79, 75, 58, 53] ∧
      (TextServer.handle_client Scenario.wTrailing).wire = [1, 2, 3, 4, 5]) ∧
    ((TextServer.handle_client Scenario.wPrefix).exit = .finished ∧
      (TextServer.handle_client Scenario.wPrefix).header = [79, 75, 58, 53] ∧
      (TextServer.handle_client Scenario.wPrefix).wire = [1, 2, 3, 4, 5]) := by
  decide

namespace RpcServer

theorem count_readActs (a : Act) (ha : ∀ r n, a ≠ .recv r n) (reads : List (Nat × Int)) :
    (readActs reads).count a = 0 := by
  induction reads with
  | nil => rfl
  | cons p ps ih =>
    have hne : ¬ (Act.recv p.1 p.2 = a) := fun h => ha p.1 p.2 h.symm
    simp only [readActs, List.map_cons, List.count_cons, beq_iff_eq, hne, if_false] at ih ⊢
    simpa [readActs] using ih

theorem getLast_cons_cons_of_some (a b : Act) (l : List Act) (c : Act)
    (h : l.getLast? = some c) : (a :: b :: l).getLast? = some c := by
  cases l with
  | nil => simp at h
  | cons x xs => rw [List.getLast?_cons_cons, List.getLast?_cons_cons]; exact h

/-- Descriptors handled inside the receive loop: none is opened; while the loop goes on or
ends normally none is closed; on its two error returns each is closed once, the
connection last. -/
theorem recv_loop_handles (filesize : Int) (wr : Nat → List Byte → Int)
    (script : List RecvResult) :
    ∀ (received : Int) (nw : Nat),
      ((recv_loop filesize wr script received nw).exit = .blocked ∨
        (recv_loop filesize wr script received nw).exit = .finished ∨
        (recv_loop filesize wr script received nw).exit = .recvError ∨
        (recv_loop filesize wr script received nw).exit = .writeError) ∧
      (∀ ok, (recv_loop filesize wr script received nw).acts.count (.openOut ok) = 0) ∧
      (((recv_loop filesize wr script received nw).exit = .blocked ∨
          (recv_loop filesize wr script received nw).exit = .finished) →
        (recv_loop filesize wr script received nw).acts.count .closeOut = 0 ∧
        (recv_loop filesize wr script received nw).acts.count .closeConn = 0) ∧
      (((recv_loop filesize wr script received nw).exit = .recvError ∨
          (recv_loop filesize wr script received nw).exit = .writeError) →
        (recv_loop filesize wr script received nw).acts.count .closeOut = 1 ∧
        (recv_loop filesize wr script received nw).acts.count .closeConn = 1 ∧
        (recv_loop filesize wr script received nw).acts.getLast? = some .closeConn) := by
  induction script with
  | nil =>
    intro received nw
    unfold recv_loop
    split <;> simp
  | cons r script ih =>
    intro received nw
    unfold recv_loop
    split
    · simp only []
      split
      · simp
      · split
        · simp
        · split
          · simp
          · obtain ⟨i1, i2, i3, i4⟩ := ih (received + r.ret) (nw + 1)
            refine ⟨i1, ?_, ?_, ?_⟩
            · intro ok
              simpa using i2 ok
            · intro h
              simpa using i3 h
            · intro h
              obtain ⟨j1, j2, j3⟩ := i4 h
              refine ⟨by simpa using j1, by simpa using j2, ?_⟩
              exact getLast_cons_cons_of_some _ _ _ _ j3
    · simp

end RpcServer

/-- C12 (no handle leak on the binary receiver). For every behaviour of the peer and of the
storage, when `handle_client` returns, `close(conn_fd)` has been called exactly once, it
is the last call made, `open` has been called at most once, and `close(fd)` has been
called as many times as `open` succeeded: once if the output file was opened, never
otherwise. -/
theorem RpcServer.handle_client_no_leak (w : RpcServer.World)
    (hret : (RpcServer.handle_client w).exit ≠ .blocked) :
    (RpcServer.handle_client w).acts.count .closeConn = 1 ∧
    (RpcServer.handle_client w).acts.getLast? = some .closeConn ∧
    (RpcServer.handle_client w).acts.count (.openOut true) ≤ 1 ∧
    (RpcServer.handle_client w).acts.count .closeOut
      = (RpcServer.handle_client w).acts.count (.openOut true) := by
  have c1 := RpcServer.count_readActs .closeConn (by intro r n h; cases h)
    (RpcServer.recv_all RpcServer.sizeofMetadata w.recvs).reads
  have c2 := RpcServer.count_readActs .closeOut (by intro r n h; cases h)
    (RpcServer.recv_all RpcServer.sizeofMetadata w.recvs).reads
  have c3 := RpcServer.count_readActs (.openOut true) (by intro r n h; cases h)
    (RpcServer.recv_all RpcServer.sizeofMetadata w.recvs).reads
  unfold RpcServer.handle_client at hret ⊢
  simp only [] at hret ⊢
  split
  · rename_i h
    simp [h] at hret
  · rename_i n h
    simp only [h] at hret
    split
    · simp [List.count_append, c1, c2, c3]
    · rename_i hn
      rw [if_neg hn] at hret
      split
      · simp [List.count_append, c1, c2, c3]
      · rename_i hm
        rw [if_neg hm] at hret
        split
        · simp [List.count_append, c1, c2, c3]
        · rename_i ho
          rw [if_neg ho] at hret
          obtain ⟨l1, l2, l3, l4⟩ := RpcServer.recv_loop_handles
            (RpcServer.parseMetadata (RpcServer.recv_all RpcServer.sizeofMetadata w.recvs).buf).filesize
            w.writes (RpcServer.recv_all RpcServer.sizeofMetadata w.recvs).rest 0 0
          rcases l1 with e | e | e | e
          · simp [e] at hret
          · obtain ⟨k1, k2⟩ := l3 (Or.inr e)
            simp only [e]
            split
            · refine ⟨by simp [List.count_append, c1, k2], ?_,
                by simp [List.count_append, c3, l2 true],
                by simp [List.count_append, c2, c3, k1, l2 true]⟩
              rw [List.getLast?_append]
              rfl
            · refine ⟨by simp [List.count_append, c1, k2], ?_,
                by simp [List.count_append, c3, l2 true],
                by simp [List.count_append, c2, c3, k1, l2 true]⟩
              rw [List.getLast?_append]
              rfl
          · obtain ⟨k1, k2, k3⟩ := l4 (Or.inl e)
            simp only [e]
            refine ⟨by simp [List.count_append, c1, k2], ?_,
              by simp [List.count_append, c3, l2 true],
              by simp [List.count_append, c2, c3, k1, l2 true]⟩
            rw [List.getLast?_append, k3]
            rfl
          · obtain ⟨k1, k2, k3⟩ := l4 (Or.inr e)
            simp only [e]
            refine ⟨by simp [List.count_append, c1, k2], ?_,
              by simp [List.count_append, c3, l2 true],
              by simp [List.count_append, c2, c3, k1, l2 true]⟩
            rw [List.getLast?_append, k3]
            rfl

set_option maxRecDepth 100000 in
theorem handle_client_no_leak_witness :
    (RpcServer.handle_client Scenario.wEarlyClose).acts.count .closeConn = 1 ∧
    (RpcServer.handle_client Scenario.wEarlyClose).acts.getLast? = some .closeConn ∧
    (RpcServer.handle_client Scenario.wEarlyClose).acts.count (.openOut true) ≤ 1 ∧
    (RpcServer.handle_client Scenario.wEarlyClose).acts.count .closeOut
      = (RpcServer.handle_client Scenario.wEarlyClose).acts.count (.openOut true) :=
  RpcServer.handle_client_no_leak Scenario.wEarlyClose (by decide)

theorem Mpi.recv_loop_counter (filesize : Int) (messages : List (List Byte)) :
    ∀ (total : Int), (∀ m ∈ messages, m.length ≤ Mpi.CHUNK_SIZE) →
      (∀ it ∈ (Mpi.recv_loop filesize messages total).iters,
        it.maxCount = Mpi.CHUNK_SIZE ∧ total ≤ it.counter ∧ it.counter < filesize) ∧
      (Mpi.recv_loop filesize messages total).total_received
        = total + ((Mpi.recv_loop filesize messages total).written.length : Int) ∧
      ((Mpi.recv_loop filesize messages total).exit = .finished →
        filesize ≤ (Mpi.recv_loop filesize messages total).total_received ∧
        ((Mpi.recv_loop filesize messages total).total_received < filesize + Mpi.CHUNK_SIZE ∨
          (Mpi.recv_loop filesize messages total).total_received = total)) := by
  induction messages with
  | nil =>
    intro total _
    unfold Mpi.recv_loop
    split
    · simp
    · rename_i h
      simp only [List.not_mem_nil, false_implies, implies_true, List.length_nil, Nat.cast_zero,
        add_zero, true_and, forall_const]
      exact ⟨not_lt.mp h, Or.inr trivial⟩
  | cons m messages ih =>
    intro total hlen
    have hm : m.length ≤ Mpi.CHUNK_SIZE := hlen m (by simp)
    obtain ⟨i1, i2, i3⟩ := ih (total + (m.length : Int)) (fun x hx => hlen x (by simp [hx]))
    unfold Mpi.recv_loop
    split
    · rename_i hlt
      simp only [List.mem_cons, forall_eq_or_imp, List.length_append, Nat.cast_add]
      refine ⟨⟨⟨trivial, le_refl _, hlt⟩, ?_⟩, by rw [i2]; ring, ?_⟩
      · intro it hit
        obtain ⟨j1, j2, j3⟩ := i1 it hit
        exact ⟨j1, by omega, j3⟩
      · intro hfin
        obtain ⟨k1, k2⟩ := i3 hfin
        refine ⟨k1, Or.inl ?_⟩
        rcases k2 with k2 | k2
        · exact k2
        · rw [k2]
          have : (m.length : Int) ≤ (Mpi.CHUNK_SIZE : Int) := by exact_mod_cast hm
          omega
    · rename_i h
      simp only [List.not_mem_nil, false_implies, implies_true, List.length_nil, Nat.cast_zero,
        add_zero, true_and, forall_const]
      exact ⟨not_lt.mp h, Or.inr trivial⟩

/-- C15, counterexample (message-passing receiver). The metadata announces 5 bytes and one
message of 10 bytes arrives: the receive asks for 4096 bytes, not for the 5 that remain,
`total_received` becomes 10, above the declared size, and the loop ends with status 500. -/
theorem Mpi.oversized_message_overshoots :
    (Mpi.run_server 5 [[1, 2, 3, 4, 5, 6, 7, 8, 9, 10]]).exit = .finished ∧
    (Mpi.run_server 5 [[1, 2, 3, 4, 5, 6, 7, 8, 9, 10]]).iters
      = [{ counter := 0, maxCount := 4096, count := 10 }] ∧
    (Mpi.run_server 5 [[1, 2, 3, 4, 5, 6, 7, 8, 9, 10]]).total_received = 10 ∧
    (Mpi.run_server 5 [[1, 2, 3, 4, 5, 6, 7, 8, 9, 10]]).final_status = some 500 := by
  decide

/-- C15, as amended (counter of the message-passing receiver). For every declared size and
every sequence of payload messages of at most 4096 bytes: each receive asks for
`CHUNK_SIZE` bytes whatever remains; `total_received` is the number of bytes handed to
`fwrite` and is non-negative and below the declared size when an iteration starts; when the loop
ends it is at least the declared size and, for a positive declared size, less than the
declared size plus 4096; the final status is 201 when `total_received` equals the
declared size and 500 otherwise. -/
theorem Mpi.run_server_counter (filesize : Int) (messages : List (List Byte))
    (hlen : ∀ m ∈ messages, m.length ≤ Mpi.CHUNK_SIZE) :
    (∀ it ∈ (Mpi.run_server filesize messages).iters,
      it.maxCount = Mpi.CHUNK_SIZE ∧ 0 ≤ it.counter ∧ it.counter < filesize) ∧
    (Mpi.run_server filesize messages).total_received
      = ((Mpi.run_server filesize messages).written.length : Int) ∧
    ((Mpi.run_server filesize messages).exit = .finished →
      filesize ≤ (Mpi.run_server filesize messages).total_received ∧
      (0 < filesize →
        (Mpi.run_server filesize messages).total_received < filesize + Mpi.CHUNK_SIZE) ∧
      (Mpi.run_server filesize messages).final_status
        = some (if (Mpi.run_server filesize messages).total_received = filesize then 201
            else 500)) := by
  obtain ⟨l1, l2, l3⟩ := Mpi.recv_loop_counter filesize messages 0 hlen
  rw [zero_add] at l2
  cases hx : (Mpi.recv_loop filesize messages 0).exit with
  | blocked =>
    simp only [Mpi.run_server, hx]
    refine ⟨l1, l2, ?_⟩
    intro h
    cases h
  | finished =>
    obtain ⟨k1, k2⟩ := l3 hx
    simp only [Mpi.run_server, hx]
    refine ⟨l1, l2, fun _ => ⟨k1, ?_, trivial⟩⟩
    intro hpos
    rcases k2 with k2 | k2
    · exact k2
    · rw [k2]
      unfold Mpi.CHUNK_SIZE
      omega

theorem run_server_counter_witness :
    (Mpi.run_server 5 [[1, 2, 3], [4, 5]]).exit = .finished ∧
    (Mpi.run_server 5 [[1, 2, 3], [4, 5]]).total_received = 5 ∧
    (Mpi.run_server 5 [[1, 2, 3], [4, 5]]).final_status = some 201 :=
  have h := Mpi.run_server_counter 5 [[1, 2, 3], [4, 5]] (by decide)
  ⟨by decide, by decide, (h.2.2 (by decide)).2.2⟩

namespace RpcServer

theorem ret_pos_eq_length (r : RecvResult) (h : 0 < r.ret) : r.ret = (r.bytes.length : Int) := by
  cases r with
  | error e => simp [RecvResult.ret] at h; omega
  | closed => simp [RecvResult.ret] at h
  | data bs => rfl

/-- Reading through results that are all positive and do not deliver more than is missing:
the loop stores them and goes on with what follows. -/
theorem recv_all_loop_consumes (len : Nat) (tail : List RecvResult) (pre : List RecvResult) :
    ∀ (total : Nat) (buf : List Byte), (∀ r ∈ pre, 0 < r.ret) →
      total + (delivered pre).length ≤ len →
      recv_all_loop len (pre ++ tail) total buf
        = { recv_all_loop len tail (total + (delivered pre).length) (buf ++ delivered pre) with
            reads := expectedReads len pre total
              ++ (recv_all_loop len tail (total + (delivered pre).length)
                    (buf ++ delivered pre)).reads } := by
  induction pre with
  | nil =>
    intro total buf _ _
    simp [delivered, expectedReads]
  | cons r pre ih =>
    intro total buf hpos hle
    have hr : 0 < r.ret := hpos r (by simp)
    have hlen := ret_pos_eq_length r hr
    have hd : delivered (r :: pre) = r.bytes ++ delivered pre := by
      simp [delivered]
    rw [hd, List.length_append] at hle
    have hlt : total < len := by omega
    rw [List.cons_append, recv_all_loop_data len r (pre ++ tail) total buf hlt (not_le.mpr hr),
      ih (total + r.bytes.length) (buf ++ r.bytes) (fun x hx => hpos x (by simp [hx]))
        (by omega), hd]
    simp only [expectedReads, List.length_append, List.append_assoc, Nat.add_assoc, hlen,
      List.cons_append]

/-- The log of reads is what the results at the head of the script lead to. -/
theorem recv_all_loop_log (len : Nat) (script : List RecvResult) :
    ∀ (total : Nat) (buf : List Byte),
      (recv_all_loop len script total buf).reads
        = expectedReads len (script.take (recv_all_loop len script total buf).reads.length) total ∧
      (recv_all_loop len script total buf).rest
        = script.drop (recv_all_loop len script total buf).reads.length := by
  induction script with
  | nil =>
    intro total buf
    by_cases h : total < len
    · rw [recv_all_loop_nil len total buf h]; simp [expectedReads]
    · rw [recv_all_loop_done len [] total buf h]; simp [expectedReads]
  | cons r script ih =>
    intro total buf
    by_cases h : total < len
    · by_cases hr : r.ret ≤ 0
      · rw [recv_all_loop_stop len r script total buf h hr]
        simp [expectedReads]
      · rw [recv_all_loop_data len r script total buf h hr]
        obtain ⟨i1, i2⟩ := ih (total + r.bytes.length) (buf ++ r.bytes)
        have hlen := ret_pos_eq_length r (not_le.mp hr)
        constructor
        · simp only [List.length_cons, List.take_succ_cons, expectedReads, hlen]
          rw [← i1]
        · simp only [List.length_cons, List.drop_succ_cons]
          exact i2
    · rw [recv_all_loop_done len (r :: script) total buf h]; simp [expectedReads]

/-- When `len` is returned, every read issued returned a positive count and the counts add
up to what was missing. -/
theorem recv_all_loop_len_only_if (len : Nat) (script : List RecvResult) :
    ∀ (total : Nat) (buf : List Byte),
      (recv_all_loop len script total buf).ret = some (len : Int) →
      (∀ p ∈ (recv_all_loop len script total buf).reads, 0 < p.2) ∧
      (total : Int) + ((recv_all_loop len script total buf).reads.map Prod.snd).sum = len := by
  induction script with
  | nil =>
    intro total buf hret
    by_cases h : total < len
    · rw [recv_all_loop_nil len total buf h] at hret; simp at hret
    · rw [recv_all_loop_done len [] total buf h] at hret ⊢
      simp only [Option.some.injEq] at hret
      simp [hret]
  | cons r script ih =>
    intro total buf hret
    by_cases h : total < len
    · by_cases hr : r.ret ≤ 0
      · rw [recv_all_loop_stop len r script total buf h hr] at hret
        simp only [Option.some.injEq] at hret
        omega
      · rw [recv_all_loop_data len r script total buf h hr] at hret ⊢
        obtain ⟨i1, i2⟩ := ih (total + r.bytes.length) (buf ++ r.bytes) hret
        have hpos : (0 : Int) < (r.bytes.length : Int) := by
          have := ret_pos_eq_length r (not_le.mp hr)
          omega
        constructor
        · intro p hp
          simp only [List.mem_cons] at hp
          rcases hp with rfl | hp
          · exact hpos
          · exact i1 p hp
        · simp only [List.map_cons, List.sum_cons]
          push_cast at i2
          omega
    · rw [recv_all_loop_done len (r :: script) total buf h] at hret ⊢
      simp only [Option.some.injEq] at hret
      simp [hret]

theorem expectedReads_append (len : Nat) (a b : List RecvResult) :
    ∀ total, expectedReads len (a ++ b) total
      = expectedReads len a total ++ expectedReads len b (total + (delivered a).length) := by
  induction a with
  | nil => intro total; simp [expectedReads, delivered]
  | cons r a ih =>
    intro total
    have hd : (delivered (r :: a)).length = r.bytes.length + (delivered a).length := by
      simp [delivered]
    rw [List.cons_append, expectedReads, expectedReads, ih, hd, Nat.add_assoc, List.cons_append]

theorem recv_all_success (len : Nat) (pre post : List RecvResult)
    (hpos : ∀ r ∈ pre, 0 < r.ret) (hlen : (delivered pre).length = len) :
    (recv_all len (pre ++ post)).ret = some (len : Int) ∧
    (recv_all len (pre ++ post)).buf = delivered pre ∧
    (recv_all len (pre ++ post)).reads = expectedReads len pre 0 ∧
    (recv_all len (pre ++ post)).rest = post := by
  unfold recv_all
  rw [recv_all_loop_consumes len post pre 0 [] hpos (by omega), Nat.zero_add, hlen,
    recv_all_loop_done len post len _ (lt_irrefl _)]
  simp

theorem recv_all_stops (len : Nat) (pre : List RecvResult) (z : RecvResult)
    (post : List RecvResult) (hpos : ∀ r ∈ pre, 0 < r.ret)
    (hlen : (delivered pre).length < len) (hz : z.ret ≤ 0) :
    (recv_all len (pre ++ z :: post)).ret = some z.ret ∧
    (recv_all len (pre ++ z :: post)).reads = expectedReads len (pre ++ [z]) 0 ∧
    (recv_all len (pre ++ z :: post)).rest = post := by
  unfold recv_all
  rw [recv_all_loop_consumes len (z :: post) pre 0 [] hpos (by omega), Nat.zero_add,
    recv_all_loop_stop len z post _ _ hlen hz, expectedReads_append]
  simp [expectedReads]

theorem recv_all_blocks (len : Nat) (pre : List RecvResult)
    (hpos : ∀ r ∈ pre, 0 < r.ret) (hlen : (delivered pre).length < len) :
    (recv_all len pre).ret = none ∧
    (recv_all len pre).reads = expectedReads len pre 0 := by
  unfold recv_all
  have := recv_all_loop_consumes len [] pre 0 [] hpos (by omega)
  rw [List.append_nil, Nat.zero_add, recv_all_loop_nil len _ _ hlen] at this
  rw [this]
  simp

end RpcServer

/-- C5 (`recv_all` reads exactly `len` bytes). The reads issued are the results at the head
of the sequence, one after the other, each asking for exactly `len` minus the bytes
stored so far, and the results after them are left unread. (2) If the first results are
all positive and deliver `len` bytes in total, `recv_all` returns `len` after reading
exactly those, and the buffer holds their bytes in order; conversely, when `len` is
returned every read issued returned a positive count and the counts add up to `len`.
(3) If a result that is not positive (0 for closure, negative for error) comes after
positive results that deliver fewer than `len` bytes, `recv_all` returns that result,
which its callers test with `<= 0`, and reads nothing after it. If all results are positive
and deliver fewer than `len` bytes, the call does not return. (1) When no read returns
more than it was asked for, the running total never exceeds `len`, and the other
properties hold as stated on the log of reads. -/
theorem RpcServer.recv_all_exactly (len : Nat) (script : List RecvResult) :
    ((RpcServer.recv_all len script).reads
        = RpcServer.expectedReads len
            (script.take (RpcServer.recv_all len script).reads.length) 0 ∧
      (RpcServer.recv_all len script).rest
        = script.drop (RpcServer.recv_all len script).reads.length) ∧
    (∀ pre post, script = pre ++ post → (∀ r ∈ pre, 0 < r.ret) →
      (RpcServer.delivered pre).length = len →
      (RpcServer.recv_all len script).ret = some (len : Int) ∧
      (RpcServer.recv_all len script).buf = RpcServer.delivered pre ∧
      (RpcServer.recv_all len script).reads = RpcServer.expectedReads len pre 0 ∧
      (RpcServer.recv_all len script).rest = post) ∧
    ((RpcServer.recv_all len script).ret = some (len : Int) →
      (∀ p ∈ (RpcServer.recv_all len script).reads, 0 < p.2) ∧
      ((RpcServer.recv_all len script).reads.map Prod.snd).sum = (len : Int)) ∧
    (∀ pre z post, script = pre ++ z :: post → (∀ r ∈ pre, 0 < r.ret) →
      (RpcServer.delivered pre).length < len → z.ret ≤ 0 →
      (RpcServer.recv_all len script).ret = some z.ret ∧
      (RpcServer.recv_all len script).reads = RpcServer.expectedReads len (pre ++ [z]) 0 ∧
      (RpcServer.recv_all len script).rest = post) ∧
    ((∀ r ∈ script, 0 < r.ret) → (RpcServer.delivered script).length < len →
      (RpcServer.recv_all len script).ret = none ∧
      (RpcServer.recv_all len script).reads = RpcServer.expectedReads len script 0) ∧
    ((∀ p ∈ (RpcServer.recv_all len script).reads, p.2 ≤ (p.1 : Int)) →
      (∀ pre p post, (RpcServer.recv_all len script).reads = pre ++ p :: post →
        (p.1 : Int) = (len : Int) - (pre.map Prod.snd).sum ∧
        0 ≤ (pre.map Prod.snd).sum ∧ (pre.map Prod.snd).sum + p.2 ≤ (len : Int)) ∧
      ((RpcServer.recv_all len script).ret = some (len : Int) ↔
        ((RpcServer.recv_all len script).ret ≠ none ∧
          ∀ p ∈ (RpcServer.recv_all len script).reads, 0 < p.2)) ∧
      ((RpcServer.recv_all len script).ret = some (len : Int) →
        (RpcServer.recv_all len script).buf
          = ((script.map RecvResult.bytes).flatten).take len ∧
        (RpcServer.recv_all len script).buf.length = len) ∧
      (∀ n, (RpcServer.recv_all len script).ret = some n → n ≠ (len : Int) →
        n ≤ 0 ∧ ∃ r, script.find? (fun r => decide (r.ret ≤ 0)) = some r ∧ r.ret = n)) := by
  refine ⟨RpcServer.recv_all_loop_log len script 0 [], ?_, ?_, ?_, ?_,
    RpcServer.recv_all_bounded_reads len script⟩
  · intro pre post e hpos hlen
    subst e
    exact RpcServer.recv_all_success len pre post hpos hlen
  · intro hret
    have := RpcServer.recv_all_loop_len_only_if len script 0 [] hret
    simpa using this
  · intro pre z post e hpos hlen hz
    subst e
    exact RpcServer.recv_all_stops len pre z post hpos hlen hz
  · intro hpos hlen
    exact RpcServer.recv_all_blocks len script hpos hlen

theorem recv_all_exactly_witness :
    ((RpcServer.recv_all 5 Scenario.reads5).ret = some 5 ∧
      (RpcServer.recv_all 5 Scenario.reads5).buf = [1, 2, 3, 4, 5] ∧
      (RpcServer.recv_all 5 Scenario.reads5).reads = [(5, 2), (3, 3)]) ∧
    (RpcServer.recv_all 5 [.closed, .data [1, 2, 3, 4, 5]]).ret = some 0 ∧
    (RpcServer.recv_all 5 [.data [1, 2], .error 0, .data [3, 4, 5]]).ret = some (-1) :=
  have a := (RpcServer.recv_all_exactly 5 Scenario.reads5).2.1 Scenario.reads5 [] (by rfl)
    (by decide) (by decide)
  ⟨⟨a.1, a.2.1, a.2.2.1⟩,
   ((RpcServer.recv_all_exactly 5 [.closed, .data [1, 2, 3, 4, 5]]).2.2.2.1 [] .closed
      [.data [1, 2, 3, 4, 5]] (by rfl) (by decide) (by decide) (by decide)).1,
   ((RpcServer.recv_all_exactly 5 [.data [1, 2], .error 0, .data [3, 4, 5]]).2.2.2.1
      [.data [1, 2]] (.error 0) [.data [3, 4, 5]] (by rfl) (by decide) (by decide)
      (by decide)).1⟩

namespace RpcClient

theorem offeredAt_in_chunk (content : List Byte) (q sent : Nat)
    (h : sent < ((content.drop (CHUNK_SIZE * q)).take CHUNK_SIZE).length) :
    offeredAt content.length (CHUNK_SIZE * q + sent)
      = ((content.drop (CHUNK_SIZE * q)).take CHUNK_SIZE).length - sent := by
  rw [List.length_take, List.length_drop] at h ⊢
  unfold offeredAt
  unfold CHUNK_SIZE at h ⊢
  have hq : (4096 * q + sent) / 4096 = q := by omega
  rw [hq]
  omega

theorem expected_event (content : List Byte) (q sent : Nat) (n : Int)
    (h : sent < ((content.drop (CHUNK_SIZE * q)).take CHUNK_SIZE).length) :
    ({ sent := sent, bytes_sent := CHUNK_SIZE * q + sent,
       offered := ((content.drop (CHUNK_SIZE * q)).take CHUNK_SIZE).drop sent, ret := n }
        : SendEvent)
      = { sent := (CHUNK_SIZE * q + sent) % CHUNK_SIZE, bytes_sent := CHUNK_SIZE * q + sent,
          offered := (content.take (CHUNK_SIZE * ((CHUNK_SIZE * q + sent) / CHUNK_SIZE + 1))).drop
            (CHUNK_SIZE * q + sent), ret := n } := by
  have hs : sent < CHUNK_SIZE := by
    rw [List.length_take] at h
    omega
  have hm : (CHUNK_SIZE * q + sent) % CHUNK_SIZE = sent := by
    unfold CHUNK_SIZE at hs ⊢
    omega
  rw [hm, chunk_remainder content q sent hs]

theorem expectedSends_append (content : List Byte) (a b : List Int) :
    ∀ p, expectedSends content (a ++ b) p
      = expectedSends content a p ++ expectedSends content b (p + acceptedCount a) := by
  induction a with
  | nil => intro p; simp [expectedSends, acceptedCount]
  | cons n a ih =>
    intro p
    have hc : acceptedCount (n :: a) = n.toNat + acceptedCount a := by
      simp [acceptedCount]
    rw [List.cons_append, expectedSends, expectedSends, ih, hc, Nat.add_assoc, List.cons_append]

theorem acceptedCount_append (a b : List Int) :
    acceptedCount (a ++ b) = acceptedCount a + acceptedCount b := by
  simp [acceptedCount]

theorem accepts_nil_of_done (len : Nat) (pre : List Int) (b : Nat) (hb : len ≤ b)
    (h : accepts len pre b = true) : pre = [] := by
  cases pre with
  | nil => rfl
  | cons n ns =>
    simp only [accepts, Bool.and_eq_true, decide_eq_true_eq] at h
    obtain ⟨⟨h1, h2⟩, _⟩ := h
    have : offeredAt len b = 0 := by
      unfold offeredAt
      omega
    rw [this] at h2
    simp at h2
    omega

/-- The inner loop on send results that each accept between 1 and the offered number of
bytes: either they complete the chunk, or they all belong to it and the loop goes on with
what follows. -/
theorem send_chunk_script (content : List Byte) (q : Nat) (buffer : List Byte)
    (hbuf : buffer = (content.drop (CHUNK_SIZE * q)).take CHUNK_SIZE) (tail : List Int)
    (pre : List Int) :
    ∀ (sent bs : Nat), bs = CHUNK_SIZE * q + sent → sent ≤ buffer.length →
      accepts content.length pre bs = true →
      (∃ pre1 pre2, pre = pre1 ++ pre2 ∧ sent + acceptedCount pre1 = buffer.length ∧
          accepts content.length pre2 (CHUNK_SIZE * q + buffer.length) = true ∧
          send_chunk buffer (pre ++ tail) sent bs
            = { exit := .finished, bytes_sent := CHUNK_SIZE * q + buffer.length,
                wire := buffer.drop sent, sends := expectedSends content pre1 bs,
                rest := pre2 ++ tail }) ∨
      (sent + acceptedCount pre < buffer.length ∧
          send_chunk buffer (pre ++ tail) sent bs
            = { send_chunk buffer tail (sent + acceptedCount pre) (bs + acceptedCount pre) with
                wire := (buffer.drop sent).take (acceptedCount pre)
                  ++ (send_chunk buffer tail (sent + acceptedCount pre)
                        (bs + acceptedCount pre)).wire
                sends := expectedSends content pre bs
                  ++ (send_chunk buffer tail (sent + acceptedCount pre)
                        (bs + acceptedCount pre)).sends }) := by
  induction pre with
  | nil =>
    intro sent bs hbs hle _
    by_cases h : sent < buffer.length
    · right
      refine ⟨by simpa [acceptedCount] using h, ?_⟩
      simp [acceptedCount, expectedSends]
    · left
      have hs : sent = buffer.length := by omega
      refine ⟨[], [], rfl, by simp [acceptedCount, hs], rfl, ?_⟩
      rw [List.nil_append, send_chunk_done buffer tail sent bs h, hbs, hs,
        List.drop_eq_nil_of_le (le_refl _)]
      simp [expectedSends]
  | cons n ns ih =>
    intro sent bs hbs hle hacc
    by_cases h : sent < buffer.length
    · simp only [accepts, Bool.and_eq_true, decide_eq_true_eq] at hacc
      obtain ⟨⟨h1, h2⟩, h3⟩ := hacc
      have hoff : offeredAt content.length bs = buffer.length - sent := by
        rw [hbs, hbuf]
        exact offeredAt_in_chunk content q sent (by rw [← hbuf]; exact h)
      rw [hoff] at h2
      have hn0 : ¬ n < 0 := by omega
      have hnat : (n.toNat : Int) = n := Int.toNat_of_nonneg (by omega)
      have hn1 : 1 ≤ n.toNat := by omega
      have hn2 : n.toNat ≤ buffer.length - sent := by omega
      have hev : ({ sent := sent, bytes_sent := bs, offered := buffer.drop sent, ret := n }
          : SendEvent)
          = { sent := bs % CHUNK_SIZE, bytes_sent := bs,
              offered := (content.take (CHUNK_SIZE * (bs / CHUNK_SIZE + 1))).drop bs,
              ret := n } := by
        rw [hbs, hbuf]
        exact expected_event content q sent n (by rw [← hbuf]; exact h)
      have hc : acceptedCount (n :: ns) = n.toNat + acceptedCount ns := by
        simp [acceptedCount]
      rw [List.cons_append, send_chunk_ok buffer n (ns ++ tail) sent bs h hn0]
      rcases ih (sent + n.toNat) (bs + n.toNat) (by omega) (by omega) h3 with
        ⟨pre1, pre2, e1, e2, e3, e4⟩ | ⟨e1, e2⟩
      · left
        refine ⟨n :: pre1, pre2, by rw [e1]; rfl, by rw [acceptedCount] at e2 ⊢; simp at e2 ⊢; omega,
          e3, ?_⟩
        rw [e4]
        simp only [expectedSends, hev]
        congr 1
        rw [← List.drop_drop, List.take_append_drop]
      · right
        refine ⟨by omega, ?_⟩
        rw [e2, hc]
        simp only [expectedSends, hev, List.cons_append, ← Nat.add_assoc]
        congr 1
        rw [List.take_add, List.drop_drop, List.append_assoc]
    · left
      have hs : sent = buffer.length := by omega
      refine ⟨[], n :: ns, rfl, by simp [acceptedCount, hs], by rw [← hs, ← hbs]; exact hacc, ?_⟩
      rw [send_chunk_done buffer _ sent bs h, hbs, hs, List.drop_eq_nil_of_le (le_refl _)]
      simp [expectedSends]

/-- The streaming loop on send results that each accept between 1 and the offered number
of bytes, followed by anything: the three ways such a run can go. -/
theorem stream_loop_script (content : List Byte) (fuel : Nat) :
    ∀ (file : List Byte) (pre tail : List Int) (bs : Nat),
      file = content.drop bs → (CHUNK_SIZE ∣ bs ∨ file = []) → file.length < fuel →
      accepts content.length pre bs = true →
      (acceptedCount pre = file.length →
        stream_loop fuel file (pre ++ tail) bs
          = { exit := .finished, bytes_sent := bs + acceptedCount pre, wire := file,
              sends := expectedSends content pre bs, rest := tail }) ∧
      (acceptedCount pre < file.length → ∀ n post, tail = n :: post → n < 0 →
        stream_loop fuel file (pre ++ tail) bs
          = { exit := .sendError, bytes_sent := bs + acceptedCount pre,
              wire := file.take (acceptedCount pre),
              sends := expectedSends content (pre ++ [n]) bs, rest := post }) ∧
      (acceptedCount pre < file.length → tail = [] →
        stream_loop fuel file (pre ++ tail) bs
          = { exit := .blocked, bytes_sent := bs + acceptedCount pre,
              wire := file.take (acceptedCount pre),
              sends := expectedSends content pre bs, rest := [] }) := by
  induction fuel with
  | zero =>
    intro file pre tail bs _ _ h
    omega
  | succ fuel ih =>
    intro file pre tail bs hfile halign hfuel hacc
    by_cases hnil : file = []
    · subst hnil
      have hlen : content.length ≤ bs := by
        have := congrArg List.length hfile
        simp only [List.length_nil, List.length_drop] at this
        omega
      have hpre := accepts_nil_of_done content.length pre bs hlen hacc
      subst hpre
      refine ⟨fun _ => ?_, fun h => ?_, fun h => ?_⟩
      · rw [List.nil_append, stream_loop_eof]
        simp [acceptedCount, expectedSends]
      · simp [acceptedCount] at h
      · simp [acceptedCount] at h
    · obtain ⟨q, hq⟩ := halign.resolve_right hnil
      have hbuf : file.take CHUNK_SIZE = (content.drop (CHUNK_SIZE * q)).take CHUNK_SIZE := by
        rw [hfile, hq]
      have hL : (file.take CHUNK_SIZE).length = min CHUNK_SIZE file.length :=
        List.length_take _ _
      have hflen : 0 < file.length := List.length_pos.mpr hnil
      have hfl : file.length = content.length - bs := by rw [hfile, List.length_drop]
      rcases send_chunk_script content q (file.take CHUNK_SIZE) hbuf tail pre 0 bs
          (by omega) (Nat.zero_le _) hacc with
        ⟨pre1, pre2, e1, e2, e3, e4⟩ | ⟨e1, e2⟩
      · -- the results complete the first chunk
        subst e1
        have hc : (send_chunk (file.take CHUNK_SIZE) (pre1 ++ pre2 ++ tail) 0 bs).exit
            = .finished := by
          rw [e4]
        rw [stream_loop_chunk fuel file (pre1 ++ pre2 ++ tail) bs hnil hc, e4]
        simp only [List.drop_zero]
        rw [Nat.zero_add] at e2
        have hdrop : file.drop CHUNK_SIZE
            = content.drop (CHUNK_SIZE * q + (file.take CHUNK_SIZE).length) := by
          by_cases hfull : CHUNK_SIZE ≤ file.length
          · have hb : (file.take CHUNK_SIZE).length = CHUNK_SIZE := by omega
            rw [hb, hfile, List.drop_drop, hq]
          · rw [List.drop_eq_nil_of_le (by omega), List.drop_eq_nil_of_le (by omega)]
        have halign' : CHUNK_SIZE ∣ CHUNK_SIZE * q + (file.take CHUNK_SIZE).length
            ∨ file.drop CHUNK_SIZE = [] := by
          by_cases hfull : CHUNK_SIZE ≤ file.length
          · left
            have hb : (file.take CHUNK_SIZE).length = CHUNK_SIZE := by omega
            rw [hb]
            exact Dvd.dvd.add (dvd_mul_right _ _) (dvd_refl _)
          · right
            exact List.drop_eq_nil_of_le (by omega)
        obtain ⟨i1, i2, i3⟩ := ih (file.drop CHUNK_SIZE) pre2 tail
          (CHUNK_SIZE * q + (file.take CHUNK_SIZE).length) hdrop halign'
          (by rw [List.length_drop]; unfold CHUNK_SIZE; omega) e3
        have hcount : acceptedCount (pre1 ++ pre2)
            = (file.take CHUNK_SIZE).length + acceptedCount pre2 := by
          rw [acceptedCount_append, e2]
        have hsplit : file.length
            = (file.take CHUNK_SIZE).length + (file.drop CHUNK_SIZE).length := by
          rw [List.length_drop]
          omega
        have hsends : ∀ xs, expectedSends content (pre1 ++ xs) bs
            = expectedSends content pre1 bs
              ++ expectedSends content xs (CHUNK_SIZE * q + (file.take CHUNK_SIZE).length) := by
          intro xs
          rw [expectedSends_append, e2, hq]
        rw [hcount]
        refine ⟨fun h => ?_, fun h n post ht hn => ?_, fun h ht => ?_⟩
        · rw [i1 (by omega), hsends, hq]
          simp only [List.take_append_drop, Nat.add_assoc]
        · have hfull : (file.take CHUNK_SIZE).length = CHUNK_SIZE := by
            rw [List.length_drop] at hsplit
            omega
          rw [i2 (by omega) n post ht hn, List.append_assoc, hsends, hq, hfull, List.take_add]
          simp only [Nat.add_assoc]
        · have hfull : (file.take CHUNK_SIZE).length = CHUNK_SIZE := by
            rw [List.length_drop] at hsplit
            omega
          rw [i3 (by omega) ht, hsends, hq, hfull, List.take_add]
          simp only [Nat.add_assoc]
      · -- the results all belong to the first chunk and leave it unfinished
        rw [Nat.zero_add] at e1 e2
        have hlt : acceptedCount pre < file.length := by omega
        have htake : (file.take CHUNK_SIZE).take (acceptedCount pre)
            = file.take (acceptedCount pre) := by
          rw [List.take_take]
          congr 1
          omega
        have hin : acceptedCount pre
            < ((content.drop (CHUNK_SIZE * q)).take CHUNK_SIZE).length := by
          rw [← hbuf]; exact e1
        refine ⟨fun h => by omega, fun _ n post ht hn => ?_, fun _ ht => ?_⟩
        · subst ht
          have hthat := send_chunk_neg (file.take CHUNK_SIZE) n post (acceptedCount pre)
            (bs + acceptedCount pre) e1 hn
          have hc : (send_chunk (file.take CHUNK_SIZE) (pre ++ n :: post) 0 bs).exit
              ≠ .finished := by
            rw [e2, hthat]
            simp
          rw [stream_loop_stop fuel file _ bs hnil hc, e2, hthat, expectedSends_append]
          simp only [List.drop_zero, List.append_nil, htake, expectedSends]
          rw [hq, hbuf, expected_event content q (acceptedCount pre) n hin]
        · subst ht
          have hthat := send_chunk_nil (file.take CHUNK_SIZE) (acceptedCount pre)
            (bs + acceptedCount pre) e1
          have hc : (send_chunk (file.take CHUNK_SIZE) (pre ++ []) 0 bs).exit ≠ .finished := by
            rw [e2, hthat]
            simp
          rw [stream_loop_stop fuel file _ bs hnil hc, e2, hthat]
          simp only [List.drop_zero, List.append_nil, htake]

/-- The offer expected at position `b` has `offeredAt` bytes. -/
theorem expected_offer_length (content : List Byte) (b : Nat) :
    ((content.take (CHUNK_SIZE * (b / CHUNK_SIZE + 1))).drop b).length
      = offeredAt content.length b := by
  rw [List.length_drop, List.length_take, offeredAt]

/-- The condition `accepts` on the send results says that every expected `send` receives a
result between 1 and the number of bytes it offers. -/
theorem accepts_iff_expected (content : List Byte) (ns : List Int) :
    ∀ b, accepts content.length ns b = true ↔
      ∀ e ∈ expectedSends content ns b, 1 ≤ e.ret ∧ e.ret ≤ (e.offered.length : Int) := by
  induction ns with
  | nil =>
    intro b
    simp [accepts, expectedSends]
  | cons n ns ih =>
    intro b
    simp only [accepts, expectedSends, Bool.and_eq_true, decide_eq_true_eq, List.mem_cons,
      forall_eq_or_imp, expected_offer_length, ih]

end RpcClient

/-- C6 (sender streaming with retry of partial sends, binary client). For every file content
and every sequence of `send` results, the run of the streaming loop is determined by the
results as follows. Call a prefix of the results regular when each result is between 1 and
the number of bytes of the file from the position reached up to the end of the current
4096-byte chunk (`accepts`; this is the same as each expected `send` accepting between 1
and the offered number of bytes). (1) If a regular prefix accepts as many bytes as the
file has, the loop ends normally having consumed exactly that prefix: the bytes accepted by
the transport are the file content, `bytes_sent` is its length, and the `send` calls are
the expected ones, each made with `bytes_sent` equal to the bytes accepted so far and
offering the unsent rest of the current chunk, so nothing of a later chunk is offered early.
(2) If a regular prefix that leaves the file unfinished is followed by a negative result,
the loop stops on the error path at that `send`: the wire holds the bytes accepted before
it, the negative result is the last `send`, and the later results are not consumed.
(3) If the results are regular and run out before the file is finished, the loop waits in
`send`. Whatever the results, the wire carries the accepted parts of the offers in order,
and a negative result is the last `send` of the run, which then ends on the error path. -/
theorem RpcClient.stream_file_partial_sends (content : List Byte) (sends : List Int) :
    (∀ pre : List Int, RpcClient.accepts content.length pre 0 = true ↔
      ∀ e ∈ RpcClient.expectedSends content pre 0,
        1 ≤ e.ret ∧ e.ret ≤ (e.offered.length : Int)) ∧
    (∀ pre post, sends = pre ++ post → RpcClient.accepts content.length pre 0 = true →
      RpcClient.acceptedCount pre = content.length →
      RpcClient.stream_file content sends
        = { exit := .finished, bytes_sent := content.length, wire := content,
            sends := RpcClient.expectedSends content pre 0, rest := post }) ∧
    (∀ pre n post, sends = pre ++ n :: post → RpcClient.accepts content.length pre 0 = true →
      RpcClient.acceptedCount pre < content.length → n < 0 →
      RpcClient.stream_file content sends
        = { exit := .sendError, bytes_sent := RpcClient.acceptedCount pre,
            wire := content.take (RpcClient.acceptedCount pre),
            sends := RpcClient.expectedSends content (pre ++ [n]) 0, rest := post }) ∧
    (RpcClient.accepts content.length sends 0 = true →
      RpcClient.acceptedCount sends < content.length →
      RpcClient.stream_file content sends
        = { exit := .blocked, bytes_sent := RpcClient.acceptedCount sends,
            wire := content.take (RpcClient.acceptedCount sends),
            sends := RpcClient.expectedSends content sends 0, rest := [] }) ∧
    (RpcClient.stream_file content sends).wire
      = ((RpcClient.stream_file content sends).sends.map RpcClient.SendEvent.accepted).flatten ∧
    (∀ pre e post, (RpcClient.stream_file content sends).sends = pre ++ e :: post → e.ret < 0 →
      post = [] ∧ (RpcClient.stream_file content sends).exit = .sendError) := by
  refine ⟨fun pre => RpcClient.accepts_iff_expected content pre 0, ?_, ?_, ?_, ?_⟩
  · intro pre post hs hacc hcount
    obtain ⟨i1, _, _⟩ := RpcClient.stream_loop_script content (content.length + 1) content
      pre post 0 rfl (Or.inl (dvd_zero _)) (Nat.lt_succ_self _) hacc
    rw [hs, RpcClient.stream_file, i1 hcount, Nat.zero_add, hcount]
  · intro pre n post hs hacc hcount hn
    obtain ⟨_, i2, _⟩ := RpcClient.stream_loop_script content (content.length + 1) content
      pre (n :: post) 0 rfl (Or.inl (dvd_zero _)) (Nat.lt_succ_self _) hacc
    rw [hs, RpcClient.stream_file, i2 hcount n post rfl hn, Nat.zero_add]
  · intro hacc hcount
    obtain ⟨_, _, i3⟩ := RpcClient.stream_loop_script content (content.length + 1) content
      sends [] 0 rfl (Or.inl (dvd_zero _)) (Nat.lt_succ_self _) hacc
    have h3 := i3 hcount rfl
    rw [List.append_nil, Nat.zero_add] at h3
    rw [RpcClient.stream_file, h3]
  · unfold RpcClient.stream_file
    exact RpcClient.stream_loop_always _ _ _ _

set_option maxRecDepth 100000 in
theorem stream_file_partial_sends_witness :
    RpcClient.stream_file [1, 2, 3, 4, 5] [5]
      = { exit := .finished, bytes_sent := 5, wire := [1, 2, 3, 4, 5],
          sends := [{ sent := 0, bytes_sent := 0, offered := [1, 2, 3, 4, 5], ret := 5 }],
          rest := [] } ∧
    RpcClient.stream_file [1, 2, 3, 4, 5] [2, 3, 7]
      = { exit := .finished, bytes_sent := 5, wire := [1, 2, 3, 4, 5],
          sends := [{ sent := 0, bytes_sent := 0, offered := [1, 2, 3, 4, 5], ret := 2 },
                    { sent := 2, bytes_sent := 2, offered := [3, 4, 5], ret := 3 }],
          rest := [7] } ∧
    RpcClient.stream_file [1, 2, 3, 4, 5] [2, -1, 3]
      = { exit := .sendError, bytes_sent := 2, wire := [1, 2],
          sends := [{ sent := 0, bytes_sent := 0, offered := [1, 2, 3, 4, 5], ret := 2 },
                    { sent := 2, bytes_sent := 2, offered := [3, 4, 5], ret := -1 }],
          rest := [3] } ∧
    RpcClient.stream_file [1, 2, 3, 4, 5] [-1]
      = { exit := .sendError, bytes_sent := 0, wire := [],
          sends := [{ sent := 0, bytes_sent := 0, offered := [1, 2, 3, 4, 5], ret := -1 }],
          rest := [] } ∧
    RpcClient.stream_file [1, 2, 3, 4, 5] [2]
      = { exit := .blocked, bytes_sent := 2, wire := [1, 2],
          sends := [{ sent := 0, bytes_sent := 0, offered := [1, 2, 3, 4, 5], ret := 2 }],
          rest := [] } :=
  ⟨(RpcClient.stream_file_partial_sends [1, 2, 3, 4, 5] [5]).2.1 [5] [] rfl
      (by decide) (by decide),
   (RpcClient.stream_file_partial_sends [1, 2, 3, 4, 5] [2, 3, 7]).2.1 [2, 3] [7] rfl
      (by decide) (by decide),
   (RpcClient.stream_file_partial_sends [1, 2, 3, 4, 5] [2, -1, 3]).2.2.1 [2] (-1) [3] rfl
      (by decide) (by decide) (by decide),
   (RpcClient.stream_file_partial_sends [1, 2, 3, 4, 5] [-1]).2.2.1 [] (-1) [] rfl
      (by decide) (by decide) (by decide),
   (RpcClient.stream_file_partial_sends [1, 2, 3, 4, 5] [2]).2.2.2.1 (by decide) (by decide)⟩
